import Mathlib

/-!
Verification development for the Orc-Torrent control-plane core
(`crates/orc-core/src/lib.rs`).

The Rust source is shallowly embedded:
* machine integers (`u32`, `u64`, `usize`) become `Nat`; `i64` becomes `Int`
  with the explicit i64 bounds where the source parses such values;
* `Instant` and epoch-millisecond timestamps become `Nat` parameters
  (`now`, `nowMs`) threaded through the operations that read clocks;
* `HashMap` becomes an association list with key-unique update semantics;
* fallible operations (`Result<...>`) become `Except String ...`, paired
  with the (possibly unchanged) state to mirror `&mut` mutation;
* the external transfer engine and GeoIP reader are modelled as oracle
  parameters, since the core only consumes their responses;
* the few `f64`/`f32` computations (transfer rates, progress fractions)
  are modelled in exact arithmetic: rates as `delta * 1000 / elapsedMs`
  (the exact rational value of `delta / (elapsedMs/1000)`, floored),
  progress fractions as `ℚ`.  No claim below depends on the value of a
  non-zero rate or on float rounding.
-/

namespace Orc

/-- Torrent lifecycle states (`enum TorrentState`). -/
inductive TorrentState where
  | Stopped
  | Downloading
  | Seeding
  | Checking
  | Error
  deriving DecidableEq, Repr

/-- Kill-switch enforcement states (`enum KillSwitchState`). -/
inductive KillSwitchState where
  | Disarmed
  | Armed
  | Engaged
  | Releasing
  deriving DecidableEq, Repr

/-- Kill-switch scope (`enum KillSwitchScope`). -/
inductive KillSwitchScope where
  | TorrentOnly
  | AppLevel
  deriving DecidableEq, Repr

/-- Anonymity mode (`enum TorrentMode`). -/
inductive TorrentMode where
  | Standard
  | Private
  | Anonymous
  | TorAssist
  deriving DecidableEq, Repr

/-- Per-torrent anonymity profile (`struct TorrentProfile`). -/
structure TorrentProfile where
  mode : TorrentMode
  hops : Nat
  deriving DecidableEq, Repr

/-- Public torrent record (`struct Torrent`). -/
structure Torrent where
  id : String
  name : String
  added_at_ms : Nat
  running : Bool
  profile : TorrentProfile
  info_hash_hex : Option String
  save_path : Option String
  deriving DecidableEq, Repr

/-- Per-file entry (`struct TorrentFileEntry`). -/
structure TorrentFileEntry where
  path : List String
  size : Nat
  priority : String
  downloaded : Bool
  deriving DecidableEq, Repr

/-- Bounded per-peer rate sample (`struct PeerSample`); `atMs` models the
`Instant` field `at`. -/
structure PeerSample where
  downloaded : Nat
  uploaded : Nat
  last_seen_ms : Nat
  atMs : Nat
  deriving DecidableEq, Repr

/-- Per-tracker runtime counters (`struct TrackerRuntimeState`). -/
structure TrackerRuntimeState where
  last_announce_ms : Option Nat
  next_announce_ms : Option Nat
  announce_count : Nat
  scrape_count : Nat
  last_error : Option String
  deriving DecidableEq, Repr

/-- Transient forced-state override (`struct StateOverride`); `untilMs`
models the `Instant` field `until`. -/
structure StateOverride where
  untilMs : Nat
  state : TorrentState
  deriving DecidableEq, Repr

/-- Engine-observed runtime state (`struct TorrentRuntime`).  Progress
fractions cached per peer are modelled as `ℚ` in place of `f32`. -/
structure TorrentRuntime where
  rqbit_id : Nat
  total_bytes : Nat
  downloaded_bytes : Nat
  uploaded_bytes : Nat
  running : Bool
  state : TorrentState
  down_rate_bps : Nat
  up_rate_bps : Nat
  peers_seen : Nat
  files : List TorrentFileEntry
  last_error : Option String
  trackers : List String
  tracker_state : List (String × TrackerRuntimeState)
  peer_samples : List (String × PeerSample)
  state_override : Option StateOverride
  last_sample : Nat
  last_downloaded_bytes : Nat
  last_uploaded_bytes : Nat
  heartbeat_samples : List Nat
  heartbeat_last_sample : Nat
  heartbeat_last_bytes : Nat
  total_pieces_estimate : Nat
  piece_availability : List Nat
  peer_progress_cache : List (String × ℚ)
  deriving DecidableEq, Repr

/-- Registry entry (`struct TorrentRecord`). -/
structure TorrentRecord where
  torrent : Torrent
  runtime : TorrentRuntime
  deriving DecidableEq, Repr

/-- Three-valued toggle (`enum TriState`). -/
inductive TriState where
  | Off
  | Prefer
  | Require
  deriving DecidableEq, Repr

/-- Overlay padding level (`enum PaddingLevel`). -/
inductive PaddingLevel where
  | Off
  | Low
  | High
  deriving DecidableEq, Repr

/-- Policy profile (`enum PolicyProfile`). -/
inductive PolicyProfile where
  | Standard
  | Hardened
  | Anonymous
  deriving DecidableEq, Repr

/-- User-desired policy (`struct DesiredPolicy`). -/
structure DesiredPolicy where
  anonymous_mode : Bool
  peer_encryption : TriState
  dht_hardening : Bool
  enforce_private_torrents : Bool
  ip_blocklist : Bool
  kill_switch : Bool
  bind_interface_only : Bool
  overlay_padding : PaddingLevel
  sybil_resistance : Bool
  relay_pow_required : Bool
  relay_subnet_diversity : Bool
  relay_reputation_weighting : Bool
  ipv6_enabled : Bool
  upnp_natpmp_enabled : Bool
  circuit_rotation_enabled : Bool
  deny_direct_exits : Bool
  minimize_fingerprinting : Bool
  profile : Option PolicyProfile
  deriving DecidableEq, Repr

/-- Derived effective policy (`struct EffectivePolicy`). -/
structure EffectivePolicy where
  anonymous_mode : Bool
  peer_encryption : TriState
  dht_hardening : Bool
  enforce_private_torrents : Bool
  ip_blocklist : Bool
  kill_switch : Bool
  bind_interface_only : Bool
  overlay_padding : PaddingLevel
  sybil_resistance : Bool
  relay_pow_required : Bool
  relay_subnet_diversity : Bool
  relay_reputation_weighting : Bool
  ipv6_enabled : Bool
  upnp_natpmp_enabled : Bool
  circuit_rotation_enabled : Bool
  deny_direct_exits : Bool
  minimize_fingerprinting : Bool
  profile : Option PolicyProfile
  network_allowed : Bool
  discovery_allowed : Bool
  direct_peer_allowed : Bool
  deriving DecidableEq, Repr

/-- Policy warning severity (`enum PolicyWarningSeverity`). -/
inductive PolicyWarningSeverity where
  | Info
  | Warn
  | Block
  deriving DecidableEq, Repr

/-- Advisory/blocking policy warning (`struct PolicyWarning`). -/
structure PolicyWarning where
  code : String
  message : String
  severity : PolicyWarningSeverity
  deriving DecidableEq, Repr

/-- Per-field disabled reason (`struct ToggleDisabled`). -/
structure ToggleDisabled where
  disabled : Bool
  reason : Option String
  deriving DecidableEq, Repr

/-- Full policy state (`struct PolicyState`). -/
structure PolicyState where
  desired : DesiredPolicy
  effective : EffectivePolicy
  warnings : List PolicyWarning
  disabled : List (String × ToggleDisabled)
  version : Nat
  last_updated_ms : Nat
  deriving DecidableEq, Repr

/-- VPN source configuration (`struct VpnSource`). -/
structure VpnSource where
  auto_detect : Bool
  allowed_adapters : List String
  deriving DecidableEq, Repr

/-- Kill-switch trigger set (`struct KillSwitchTriggers`). -/
structure KillSwitchTriggers where
  pause_all_torrents : Bool
  stop_seeding : Bool
  disable_dht_pex_lpd : Bool
  block_outbound : Bool
  deriving DecidableEq, Repr

/-- Kill-switch configuration (`struct KillSwitchConfig`). -/
structure KillSwitchConfig where
  enabled : Bool
  scope : KillSwitchScope
  vpn_source : VpnSource
  grace_period_sec : Nat
  triggers : KillSwitchTriggers
  enforcement_state : KillSwitchState
  last_enforcement_ms : Option Nat
  deriving DecidableEq, Repr

/-- Process-wide state container (`struct OrcState`).  The `rqbit`
session handle and the GeoIP reader are external collaborators; the
operations that consult them take oracle parameters instead. -/
structure OrcState where
  started_at : Nat
  download_dir : String
  torrents : List (String × TorrentRecord)
  policy : PolicyState
  kill_switch : KillSwitchConfig
  deriving DecidableEq, Repr

/-! ### Association-list counterparts of `HashMap` operations -/

/-- Lookup by key (`HashMap::get`). -/
def alLookup {α : Type} (l : List (String × α)) (k : String) : Option α :=
  (l.find? (fun kv => kv.1 == k)).map (fun kv => kv.2)

/-- Replace the value stored under an existing key (`HashMap::get_mut`
followed by assignment).  Keys are unique in a `HashMap`, so replacing
every matching entry is the same operation. -/
def alUpdate {α : Type} (l : List (String × α)) (k : String) (v : α) :
    List (String × α) :=
  l.map (fun kv => if kv.1 == k then (kv.1, v) else kv)

/-- Insert-or-replace (`HashMap::insert`). -/
def alInsert {α : Type} (l : List (String × α)) (k : String) (v : α) :
    List (String × α) :=
  if (l.find? (fun kv => kv.1 == k)).isSome then alUpdate l k v
  else l ++ [(k, v)]

theorem alLookup_cons {α : Type} (x : String × α) (l : List (String × α))
    (k : String) :
    alLookup (x :: l) k = if x.1 == k then some x.2 else alLookup l k := by
  by_cases h : x.1 == k <;>
    simp [alLookup, List.find?_cons_of_pos, List.find?_cons_of_neg, h]

theorem alUpdate_cons {α : Type} (x : String × α) (l : List (String × α))
    (k : String) (v : α) :
    alUpdate (x :: l) k v = (if x.1 == k then (x.1, v) else x) :: alUpdate l k v :=
  rfl

theorem alLookup_alUpdate_of_mem {α : Type} (l : List (String × α)) (k : String)
    (v w : α) (h : alLookup l k = some w) :
    alLookup (alUpdate l k v) k = some v := by
  induction l with
  | nil => simp [alLookup] at h
  | cons kv rest ih =>
    rw [alLookup_cons] at h
    by_cases hk : kv.1 = k
    · rw [alUpdate_cons, if_pos (by simpa using hk), alLookup_cons,
        if_pos (by simpa using hk)]
    · have hb : ¬ ((kv.1 == k) = true) := by simpa using hk
      rw [if_neg hb] at h
      rw [alUpdate_cons, if_neg hb, alLookup_cons, if_neg hb]
      exact ih h

theorem alLookup_alUpdate_ne {α : Type} (l : List (String × α)) (k k2 : String)
    (v : α) (h : k ≠ k2) :
    alLookup (alUpdate l k v) k2 = alLookup l k2 := by
  induction l with
  | nil => simp [alLookup, alUpdate]
  | cons kv rest ih =>
    by_cases hk : kv.1 = k
    · have hne : ¬ ((kv.1 == k2) = true) := by
        simp only [beq_iff_eq]
        exact fun hc => h (hk ▸ hc)
      rw [alUpdate_cons, if_pos (by simpa using hk), alLookup_cons,
        alLookup_cons, if_neg (by simpa [hk] using hne), if_neg hne]
      exact ih
    · have hb : ¬ ((kv.1 == k) = true) := by simpa using hk
      rw [alUpdate_cons, if_neg hb, alLookup_cons, alLookup_cons]
      by_cases hk2 : (kv.1 == k2) = true
      · rw [if_pos hk2, if_pos hk2]
      · rw [if_neg hk2, if_neg hk2]
        exact ih

/-! ### Magnet-link info-hash extraction

Source: `extract_info_hash_from_magnet` (lib.rs:1189-1211).  Strings
are modelled as `List Char`; byte indices and character indices agree
whenever they matter (see the comment on `c5_magnet_extraction`). -/

/-- Maximum accepted magnet length (`MAX_MAGNET_LENGTH`). -/
def MAX_MAGNET_LENGTH : Nat := 8192

/-- ASCII-hex-digit test (`char::is_ascii_hexdigit`). -/
def isAsciiHexDigit (c : Char) : Bool :=
  (decide ('0' ≤ c) && decide (c ≤ '9')) ||
  (decide ('a' ≤ c) && decide (c ≤ 'f')) ||
  (decide ('A' ≤ c) && decide (c ≤ 'F'))

/-- ASCII lowercase map; agrees with `str::to_lowercase` on the ASCII
hex digits the source feeds it. -/
def toLowerAscii (c : Char) : Char :=
  if 'A' ≤ c ∧ c ≤ 'Z' then Char.ofNat (c.toNat + 32) else c

/-- First index of character `c` in a char list (`str::find` for a
char pattern). -/
def charFindIdx (c : Char) : List Char → Option Nat
  | [] => none
  | a :: rest =>
    if a = c then some 0 else (charFindIdx c rest).map (fun i => i + 1)

/-- First index at which `pat` occurs in `hay` (`str::find` for a
pattern string). -/
def strFind (hay pat : List Char) : Option Nat :=
  match hay with
  | [] => if pat = [] then some 0 else none
  | _ :: rest =>
    if hay.take pat.length = pat then some 0
    else (strFind rest pat).map (fun i => i + 1)

/-- The `"magnet:?"` scheme marker. -/
def magnetMarker : List Char := String.toList "magnet:?"

/-- The `"xt=urn:btih:"` parameter marker. -/
def btihMarker : List Char := String.toList "xt=urn:btih:"

/-- Shallow embedding of `extract_info_hash_from_magnet`. -/
def extract_info_hash_from_magnet (magnet : List Char) : Option (List Char) :=
  if magnet.take magnetMarker.length ≠ magnetMarker then none
  else if magnet.length > MAX_MAGNET_LENGTH then none
  else
    match strFind magnet btihMarker with
    | none => none
    | some xtStart =>
      let hashStart := xtStart + 12
      let hashEnd :=
        match charFindIdx '&' (magnet.drop hashStart) with
        | some i => hashStart + i
        | none => magnet.length
      let hash := (magnet.take hashEnd).drop hashStart
      if hash.length = 40 ∧ hash.all isAsciiHexDigit then
        some (hash.map toLowerAscii)
      else none

/-! ### Bencode decoder

Source: `parse_bencode_with_depth` (lib.rs:1921-2023) and its wrapper
`parse_bencode` (lib.rs:1917-1919).  Bytes are modelled as `Nat`
(values < 256 in practice; the decoder only compares them against
ASCII codes).  The Rust recursion has no fuel; the Lean embedding
threads a fuel argument that every call decreases, and
`parseBen_fuel_enough` below proves that the fuel chosen by the
wrappers (`2 * (input.length + 1)`) can never run out, so the fuel is
proof scaffolding only and the wrapper equals the Rust function. -/

/-- Maximum nesting depth (`MAX_BENCODE_DEPTH`). -/
def MAX_BENCODE_DEPTH : Nat := 100

/-- Maximum accepted input size (`MAX_BENCODE_SIZE`, 100 MiB). -/
def MAX_BENCODE_SIZE : Nat := 100 * 1024 * 1024

/-- Maximum list element count (`MAX_LIST_ITEMS`). -/
def MAX_LIST_ITEMS : Nat := 100000

/-- Maximum dictionary entry count (`MAX_DICT_ITEMS`). -/
def MAX_DICT_ITEMS : Nat := 100000

/-- Maximum single byte-string length (`MAX_BYTE_STRING_SIZE`, 10 MiB). -/
def MAX_BYTE_STRING_SIZE : Nat := 10 * 1024 * 1024

/-- Bencode value tree (`enum BVal`). -/
inductive BVal where
  | int (n : Int)
  | bytes (b : List Nat)
  | list (items : List BVal)
  | dict (items : List (List Nat × BVal))

/-- ASCII decimal digit test on a byte. -/
def isDigitByte (b : Nat) : Bool :=
  decide (48 ≤ b) && decide (b ≤ 57)

/-- Value of a nonempty all-digit byte run; `none` on any non-digit.
Models the digits part of Rust integer `FromStr`. -/
def decDigitsVal? (s : List Nat) : Option Nat :=
  if s = [] then none
  else if s.all isDigitByte then
    some (s.foldl (fun acc b => acc * 10 + (b - 48)) 0)
  else none

/-- Rust `str::parse::<i64>` on raw bytes: optional sign, then digits,
value within the i64 range. -/
def parseI64 (s : List Nat) : Option Int :=
  match s with
  | [] => none
  | c :: rest =>
    if c = 43 then
      (decDigitsVal? rest).bind fun n =>
        if (n : Int) ≤ 2 ^ 63 - 1 then some (n : Int) else none
    else if c = 45 then
      (decDigitsVal? rest).bind fun n =>
        if n ≤ 2 ^ 63 then some (-(n : Int)) else none
    else
      (decDigitsVal? s).bind fun n =>
        if (n : Int) ≤ 2 ^ 63 - 1 then some (n : Int) else none

/-- Rust `str::parse::<usize>` on raw bytes: optional `+` sign, then
digits, value within the usize (64-bit) range. -/
def parseUsizeNum (s : List Nat) : Option Nat :=
  match s with
  | [] => none
  | c :: rest =>
    if c = 43 then
      (decDigitsVal? rest).bind fun n =>
        if n ≤ 2 ^ 64 - 1 then some n else none
    else
      (decDigitsVal? s).bind fun n =>
        if n ≤ 2 ^ 64 - 1 then some n else none

/-- Net effect of the source's scanning loop `while i < input.len() &&
input[i] != stop && count < maxLen { i += 1; count += 1 }` starting at
`i`: the number of positions advanced. -/
def runUntil (stop : Nat) (maxLen : Nat) (input : List Nat) (i : Nat) : Nat :=
  min ((input.drop i).takeWhile (fun b => b != stop)).length maxLen

mutual

/-- One step of the recursive-descent decoder
(`parse_bencode_with_depth`); `none` means the fuel ran out (shown
impossible for the wrapper's fuel). -/
def parseBen (fuel : Nat) (input : List Nat) (i : Nat) (depth : Nat) :
    Option (Except String (BVal × Nat)) :=
  match fuel with
  | 0 => none
  | fuel + 1 =>
    if depth > MAX_BENCODE_DEPTH then some (.error "bencode nesting too deep")
    else if input.length > MAX_BENCODE_SIZE then
      some (.error "bencode input too large")
    else
      match input.get? i with
      | none => some (.error "eof")
      | some b =>
        if b = 105 then
          let start := i + 1
          let runL := runUntil 101 20 input start
          let i2 := start + runL
          if i2 ≥ input.length then some (.error "unterminated int")
          else if runL ≥ 20 ∧ input.get? i2 ≠ some 101 then
            some (.error "integer too long")
          else
            match parseI64 ((input.drop start).take runL) with
            | none => some (.error "invalid int literal")
            | some n => some (.ok (.int n, i2 + 1))
        else if b = 108 then
          parseItemsBen fuel input (i + 1) depth []
        else if b = 100 then
          parsePairsBen fuel input (i + 1) depth []
        else if isDigitByte b then
          let runL := runUntil 58 10 input i
          let i2 := i + runL
          if i2 ≥ input.length then some (.error "invalid bytes length")
          else if runL ≥ 10 ∧ input.get? i2 ≠ some 58 then
            some (.error "bytes length string too long")
          else
            match parseUsizeNum ((input.drop i).take runL) with
            | none => some (.error "invalid bytes length literal")
            | some len =>
              if len > MAX_BYTE_STRING_SIZE then
                some (.error "byte string too large")
              else
                let i3 := i2 + 1
                let endIdx := i3 + len
                if endIdx > input.length then some (.error "bytes out of range")
                else some (.ok (.bytes ((input.drop i3).take len), endIdx))
        else some (.error "invalid bencode prefix")

/-- The `b'l'` branch's element loop. -/
def parseItemsBen (fuel : Nat) (input : List Nat) (i : Nat) (depth : Nat)
    (acc : List BVal) : Option (Except String (BVal × Nat)) :=
  match fuel with
  | 0 => none
  | fuel + 1 =>
    match input.get? i with
    | none => some (.error "unterminated list")
    | some b =>
      if b = 101 then some (.ok (.list acc.reverse, i + 1))
      else if acc.length ≥ MAX_LIST_ITEMS then some (.error "list too large")
      else
        match parseBen fuel input i (depth + 1) with
        | none => none
        | some (.error e) => some (.error e)
        | some (.ok (v, ni)) => parseItemsBen fuel input ni depth (v :: acc)

/-- The `b'd'` branch's key/value loop. -/
def parsePairsBen (fuel : Nat) (input : List Nat) (i : Nat) (depth : Nat)
    (acc : List (List Nat × BVal)) : Option (Except String (BVal × Nat)) :=
  match fuel with
  | 0 => none
  | fuel + 1 =>
    match input.get? i with
    | none => some (.error "unterminated dict")
    | some b =>
      if b = 101 then some (.ok (.dict acc.reverse, i + 1))
      else if acc.length ≥ MAX_DICT_ITEMS then some (.error "dict too large")
      else
        match parseBen fuel input i (depth + 1) with
        | none => none
        | some (.error e) => some (.error e)
        | some (.ok (k, ni)) =>
          match k with
          | .bytes kb =>
            match parseBen fuel input ni (depth + 1) with
            | none => none
            | some (.error e) => some (.error e)
            | some (.ok (v, ni2)) =>
              parsePairsBen fuel input ni2 depth ((kb, v) :: acc)
          | _ => some (.error "dict key is not bytes")
termination_by structural fuel

end

/-- Fuel that `parseBen_fuel_enough` proves sufficient for any start
index into `input`. -/
def benFuel (input : List Nat) : Nat := 2 * (input.length + 1) + 1

/-- Shallow embedding of `parse_bencode_with_depth`. -/
def parse_bencode_with_depth (input : List Nat) (i : Nat) (depth : Nat) :
    Except String (BVal × Nat) :=
  match parseBen (benFuel input) input i depth with
  | some r => r
  | none => .error "bencode fuel exhausted"

/-- Shallow embedding of `parse_bencode`. -/
def parse_bencode (input : List Nat) (i : Nat) : Except String (BVal × Nat) :=
  parse_bencode_with_depth input i 0

/-! Structural measures on decoded values, used to state the limit
properties. -/

mutual

/-- Nesting depth of a decoded value (leaves count 1). -/
def bvDepth : BVal → Nat
  | .int _ => 1
  | .bytes _ => 1
  | .list items => 1 + bvDepthList items
  | .dict items => 1 + bvDepthPairs items

/-- Maximum nesting depth over a list of values. -/
def bvDepthList : List BVal → Nat
  | [] => 0
  | v :: rest => max (bvDepth v) (bvDepthList rest)

/-- Maximum nesting depth over dictionary entries. -/
def bvDepthPairs : List (List Nat × BVal) → Nat
  | [] => 0
  | kv :: rest => max (bvDepth kv.2) (bvDepthPairs rest)

end

mutual

/-- Every byte string in the value is within `MAX_BYTE_STRING_SIZE`
and every list/dictionary within its element cap. -/
def bvLimitsOk : BVal → Bool
  | .int _ => true
  | .bytes b => decide (b.length ≤ MAX_BYTE_STRING_SIZE)
  | .list items => decide (items.length ≤ MAX_LIST_ITEMS) && bvLimitsOkList items
  | .dict items => decide (items.length ≤ MAX_DICT_ITEMS) && bvLimitsOkPairs items

/-- Limit check over a list of values. -/
def bvLimitsOkList : List BVal → Bool
  | [] => true
  | v :: rest => bvLimitsOk v && bvLimitsOkList rest

/-- Limit check over dictionary entries (keys are byte strings and are
bounded too). -/
def bvLimitsOkPairs : List (List Nat × BVal) → Bool
  | [] => true
  | kv :: rest =>
    decide (kv.1.length ≤ MAX_BYTE_STRING_SIZE) && bvLimitsOk kv.2 &&
      bvLimitsOkPairs rest

end

theorem bvDepthList_append (a b : List BVal) :
    bvDepthList (a ++ b) = max (bvDepthList a) (bvDepthList b) := by
  induction a with
  | nil => simp [bvDepthList]
  | cons x rest ih => simp [bvDepthList, ih]; omega

theorem bvDepthList_reverse (l : List BVal) :
    bvDepthList l.reverse = bvDepthList l := by
  induction l with
  | nil => rfl
  | cons x rest ih =>
    simp [List.reverse_cons, bvDepthList_append, bvDepthList, ih]
    omega

theorem bvDepthPairs_append (a b : List (List Nat × BVal)) :
    bvDepthPairs (a ++ b) = max (bvDepthPairs a) (bvDepthPairs b) := by
  induction a with
  | nil => simp [bvDepthPairs]
  | cons x rest ih => simp [bvDepthPairs, ih]; omega

theorem bvDepthPairs_reverse (l : List (List Nat × BVal)) :
    bvDepthPairs l.reverse = bvDepthPairs l := by
  induction l with
  | nil => rfl
  | cons x rest ih =>
    simp [List.reverse_cons, bvDepthPairs_append, bvDepthPairs, ih]
    omega

theorem bvLimitsOkList_append (a b : List BVal) :
    bvLimitsOkList (a ++ b) = (bvLimitsOkList a && bvLimitsOkList b) := by
  induction a with
  | nil => simp [bvLimitsOkList]
  | cons x rest ih => simp [bvLimitsOkList, ih, Bool.and_assoc]

theorem bvLimitsOkList_reverse (l : List BVal) :
    bvLimitsOkList l.reverse = bvLimitsOkList l := by
  induction l with
  | nil => rfl
  | cons x rest ih =>
    simp [List.reverse_cons, bvLimitsOkList_append, bvLimitsOkList, ih,
      Bool.and_comm]

theorem bvLimitsOkPairs_append (a b : List (List Nat × BVal)) :
    bvLimitsOkPairs (a ++ b) = (bvLimitsOkPairs a && bvLimitsOkPairs b) := by
  induction a with
  | nil => simp [bvLimitsOkPairs]
  | cons x rest ih => simp [bvLimitsOkPairs, ih, Bool.and_assoc]

theorem bvLimitsOkPairs_reverse (l : List (List Nat × BVal)) :
    bvLimitsOkPairs l.reverse = bvLimitsOkPairs l := by
  induction l with
  | nil => rfl
  | cons x rest ih =>
    simp only [List.reverse_cons, bvLimitsOkPairs_append, bvLimitsOkPairs, ih]
    cases bvLimitsOk x.2 <;> cases bvLimitsOkPairs rest <;>
      cases decide (x.1.length ≤ MAX_BYTE_STRING_SIZE) <;> rfl

theorem takeWhile_get_of_lt {α : Type} (p : α → Bool) :
    ∀ (l : List α) (k : Nat), k < (l.takeWhile p).length →
      ∃ x, l.get? k = some x ∧ p x = true := by
  intro l
  induction l with
  | nil => intro k h; simp [List.takeWhile] at h
  | cons a rest ih =>
    intro k h
    by_cases hp : p a
    · cases k with
      | zero => exact ⟨a, rfl, hp⟩
      | succ k2 =>
        rw [List.takeWhile_cons, if_pos hp] at h
        simp only [List.length_cons] at h
        simpa using ih k2 (by omega)
    · rw [List.takeWhile_cons, if_neg hp] at h
      simp at h

theorem get?_some_lt {α : Type} {l : List α} {n : Nat} {a : α}
    (h : l.get? n = some a) : n < l.length := by
  by_contra hc
  rw [List.get?_eq_none.mpr (by omega)] at h
  exact Option.noConfusion h

set_option maxHeartbeats 2000000 in
/-- Joint structural invariant of the decoder: every successful parse
strictly advances the index, stays within the input, and produces a
value respecting the depth and size limits. -/
theorem parse_master (fuel : Nat) :
    (∀ input i depth v j,
       parseBen fuel input i depth = some (.ok (v, j)) →
       i < j ∧ j ≤ input.length ∧ depth ≤ MAX_BENCODE_DEPTH ∧
       bvDepth v + depth ≤ MAX_BENCODE_DEPTH + 1 ∧ bvLimitsOk v = true) ∧
    (∀ input i depth acc v j,
       parseItemsBen fuel input i depth acc = some (.ok (v, j)) →
       bvDepthList acc + depth ≤ MAX_BENCODE_DEPTH →
       acc.length ≤ MAX_LIST_ITEMS →
       bvLimitsOkList acc = true →
       i < j ∧ j ≤ input.length ∧
       bvDepth v + depth ≤ MAX_BENCODE_DEPTH + 1 ∧ bvLimitsOk v = true) ∧
    (∀ input i depth acc v j,
       parsePairsBen fuel input i depth acc = some (.ok (v, j)) →
       bvDepthPairs acc + depth ≤ MAX_BENCODE_DEPTH →
       acc.length ≤ MAX_DICT_ITEMS →
       bvLimitsOkPairs acc = true →
       i < j ∧ j ≤ input.length ∧
       bvDepth v + depth ≤ MAX_BENCODE_DEPTH + 1 ∧ bvLimitsOk v = true) := by
  induction fuel with
  | zero =>
    refine ⟨?_, ?_, ?_⟩
    · intro input i depth v j h
      exact Option.noConfusion h
    · intro input i depth acc v j h
      exact Option.noConfusion h
    · intro input i depth acc v j h
      exact Option.noConfusion h
  | succ f ih =>
    obtain ⟨ihB, ihI, ihP⟩ := ih
    refine ⟨?_, ?_, ?_⟩
    · intro input i depth v j h
      simp only [parseBen] at h
      split at h
      · simp at h
      · split at h
        · simp at h
        · split at h
          · simp at h
          · -- some b
            split at h
            · -- int branch
              split at h
              · simp at h
              · split at h
                · simp at h
                · split at h
                  · simp at h
                  · -- parseI64 some n
                    simp only [Option.some.injEq, Except.ok.injEq,
                      Prod.mk.injEq] at h
                    obtain ⟨hv, hj⟩ := h
                    subst hv
                    subst hj
                    refine ⟨by omega, by omega, by omega, ?_, rfl⟩
                    simp only [bvDepth]
                    omega
            · split at h
              · -- list branch
                have hres := ihI input (i + 1) depth [] v j h
                  (by simp only [bvDepthList]; omega)
                  (by simp [MAX_LIST_ITEMS])
                  rfl
                exact ⟨by omega, hres.2.1, by omega, hres.2.2.1, hres.2.2.2⟩
              · split at h
                · -- dict branch
                  have hres := ihP input (i + 1) depth [] v j h
                    (by simp only [bvDepthPairs]; omega)
                    (by simp [MAX_DICT_ITEMS])
                    rfl
                  exact ⟨by omega, hres.2.1, by omega, hres.2.2.1, hres.2.2.2⟩
                · split at h
                  · -- bytes branch
                    split at h
                    · simp at h
                    · split at h
                      · simp at h
                      · split at h
                        · simp at h
                        · split at h
                          · simp at h
                          · split at h
                            · simp at h
                            · simp only [Option.some.injEq, Except.ok.injEq,
                                Prod.mk.injEq] at h
                              obtain ⟨hv, hj⟩ := h
                              subst hv
                              subst hj
                              refine ⟨by omega, by omega, by omega, ?_, ?_⟩
                              · simp only [bvDepth]; omega
                              · simp only [bvLimitsOk, decide_eq_true_eq,
                                  List.length_take, List.length_drop]
                                omega
                  · simp at h
    · intro input i depth acc v j h hdep hlen hlim
      simp only [parseItemsBen] at h
      split at h
      · simp at h
      · split at h
        · -- close bracket: v = .list acc.reverse
          rename_i b heq hbe
          simp only [Option.some.injEq, Except.ok.injEq, Prod.mk.injEq] at h
          obtain ⟨hv, hj⟩ := h
          subst hv
          subst hj
          have hil := get?_some_lt heq
          refine ⟨by omega, by omega, ?_, ?_⟩
          · simp only [bvDepth, bvDepthList_reverse]
            omega
          · simp only [bvLimitsOk, bvLimitsOkList_reverse, hlim,
              List.length_reverse, decide_eq_true_eq, Bool.and_eq_true]
            exact ⟨by omega, trivial⟩
        · split at h
          · simp at h
          · split at h
            · simp at h
            · simp at h
            · -- parseBen ok (x, ni)
              rename_i hcap x ni heq2
              have hB := ihB input i (depth + 1) x ni heq2
              obtain ⟨hB1, hB2, hB3, hB4, hB5⟩ := hB
              have hI := ihI input ni depth (x :: acc) v j h
                (by simp only [bvDepthList]; omega)
                (by simp only [List.length_cons]; omega)
                (by simp only [bvLimitsOkList, hB5, hlim, Bool.and_self])
              exact ⟨by omega, hI.2.1, hI.2.2.1, hI.2.2.2⟩
    · intro input i depth acc v j h hdep hlen hlim
      simp only [parsePairsBen] at h
      split at h
      · simp at h
      · split at h
        · rename_i b heq hbe
          simp only [Option.some.injEq, Except.ok.injEq, Prod.mk.injEq] at h
          obtain ⟨hv, hj⟩ := h
          subst hv
          subst hj
          have hil := get?_some_lt heq
          refine ⟨by omega, by omega, ?_, ?_⟩
          · simp only [bvDepth, bvDepthPairs_reverse]
            omega
          · simp only [bvLimitsOk, bvLimitsOkPairs_reverse, hlim,
              List.length_reverse, decide_eq_true_eq, Bool.and_eq_true]
            exact ⟨by omega, trivial⟩
        · split at h
          · simp at h
          · split at h
            · simp at h
            · simp at h
            · -- key parse ok (k, ni)
              rename_i hcap k ni heqk
              split at h
              · -- k = .bytes kb
                rename_i kb
                split at h
                · simp at h
                · simp at h
                · -- value parse ok (v2, ni2)
                  rename_i v2 ni2 heqv
                  have hK := ihB input i (depth + 1) (.bytes kb) ni heqk
                  obtain ⟨hK1, hK2, hK3, hK4, hK5⟩ := hK
                  have hV := ihB input ni (depth + 1) v2 ni2 heqv
                  obtain ⟨hV1, hV2, hV3, hV4, hV5⟩ := hV
                  have hkb : kb.length ≤ MAX_BYTE_STRING_SIZE := by
                    simpa [bvLimitsOk, decide_eq_true_eq] using hK5
                  have hI := ihP input ni2 depth ((kb, v2) :: acc) v j h
                    (by simp only [bvDepthPairs]; omega)
                    (by simp only [List.length_cons]; omega)
                    (by simp only [bvLimitsOkPairs, hV5, hlim,
                          decide_eq_true_eq, Bool.and_eq_true]
                        exact ⟨⟨hkb, trivial⟩, trivial⟩)
                  exact ⟨by omega, hI.2.1, hI.2.2.1, hI.2.2.2⟩
              · simp at h

set_option maxHeartbeats 2000000 in
/-- The wrapper fuel can never run out: with at least
`2 * (input.length + 1 - i) + 1` fuel, the decoder always delivers a
result, so the fuel argument is invisible in the wrapper's behaviour. -/
theorem parse_fuel (fuel : Nat) :
    (∀ input i depth, 2 * (input.length + 1 - i) + 1 ≤ fuel →
       parseBen fuel input i depth ≠ none) ∧
    (∀ input i depth acc, 2 * (input.length + 1 - i) + 2 ≤ fuel →
       parseItemsBen fuel input i depth acc ≠ none) ∧
    (∀ input i depth acc, 2 * (input.length + 1 - i) + 2 ≤ fuel →
       parsePairsBen fuel input i depth acc ≠ none) := by
  induction fuel with
  | zero =>
    refine ⟨?_, ?_, ?_⟩
    · intro input i depth h
      exact absurd h (by omega)
    · intro input i depth acc h
      exact absurd h (by omega)
    · intro input i depth acc h
      exact absurd h (by omega)
  | succ f ih =>
    obtain ⟨ihB, ihI, ihP⟩ := ih
    refine ⟨?_, ?_, ?_⟩
    · intro input i depth hf
      simp only [parseBen]
      split
      · simp
      · split
        · simp
        · split
          · simp
          · rename_i b heq
            have hil := get?_some_lt heq
            split
            · split
              · simp
              · split
                · simp
                · split <;> simp
            · split
              · exact ihI input (i + 1) depth [] (by omega)
              · split
                · exact ihP input (i + 1) depth [] (by omega)
                · split
                  · split
                    · simp
                    · split
                      · simp
                      · split
                        · simp
                        · split
                          · simp
                          · split <;> simp
                  · simp
    · intro input i depth acc hf
      simp only [parseItemsBen]
      split
      · simp
      · rename_i b heq
        have hil := get?_some_lt heq
        split
        · simp
        · split
          · simp
          · split
            · rename_i heq2
              exact absurd heq2 (ihB input i (depth + 1) (by omega))
            · simp
            · rename_i x ni heq2
              have hM := (parse_master f).1 input i (depth + 1) x ni heq2
              exact ihI input ni depth (x :: acc) (by omega)
    · intro input i depth acc hf
      simp only [parsePairsBen]
      split
      · simp
      · rename_i b heq
        have hil := get?_some_lt heq
        split
        · simp
        · split
          · simp
          · split
            · rename_i heq2
              exact absurd heq2 (ihB input i (depth + 1) (by omega))
            · simp
            · rename_i k ni heqk
              have hK := (parse_master f).1 input i (depth + 1) k ni heqk
              split
              · rename_i kb
                split
                · rename_i heq3
                  exact absurd heq3 (ihB input ni (depth + 1) (by omega))
                · simp
                · rename_i v2 ni2 heqv
                  have hV := (parse_master f).1 input ni (depth + 1) v2 ni2 heqv
                  exact ihP input ni2 depth ((kb, v2) :: acc) (by omega)
              · simp

theorem takeWhileLen_le {α : Type} (p : α → Bool) (l : List α) :
    (l.takeWhile p).length ≤ l.length := by
  induction l with
  | nil => simp
  | cons a rest ih =>
    rw [List.takeWhile_cons]
    by_cases hp : p a = true
    · rw [if_pos hp]
      simpa using ih
    · rw [if_neg hp]
      simp

/-- Successful element-loop parses always deliver a list value. -/
theorem parseItemsBen_shape (fuel : Nat) :
    ∀ input i depth acc v j,
      parseItemsBen fuel input i depth acc = some (.ok (v, j)) →
      ∃ xs, v = BVal.list xs := by
  induction fuel with
  | zero => intro input i depth acc v j h; exact Option.noConfusion h
  | succ f ih =>
    intro input i depth acc v j h
    simp only [parseItemsBen] at h
    split at h
    · simp at h
    · split at h
      · simp only [Option.some.injEq, Except.ok.injEq, Prod.mk.injEq] at h
        exact ⟨acc.reverse, h.1.symm⟩
      · split at h
        · simp at h
        · split at h
          · simp at h
          · simp at h
          · exact ih input _ depth _ v j h

/-- Successful key/value-loop parses always deliver a dictionary value. -/
theorem parsePairsBen_shape (fuel : Nat) :
    ∀ input i depth acc v j,
      parsePairsBen fuel input i depth acc = some (.ok (v, j)) →
      ∃ xs, v = BVal.dict xs := by
  induction fuel with
  | zero => intro input i depth acc v j h; exact Option.noConfusion h
  | succ f ih =>
    intro input i depth acc v j h
    simp only [parsePairsBen] at h
    split at h
    · simp at h
    · split at h
      · simp only [Option.some.injEq, Except.ok.injEq, Prod.mk.injEq] at h
        exact ⟨acc.reverse, h.1.symm⟩
      · split at h
        · simp at h
        · split at h
          · simp at h
          · simp at h
          · split at h
            · split at h
              · simp at h
              · simp at h
              · exact ih input _ depth _ v j h
            · simp at h

set_option maxHeartbeats 2000000 in
/-- A decoded byte-string value implies the byte at the start position
was an ASCII digit: non-digit-prefixed tokens never decode to
byte-strings (so dictionary keys starting with any other token class
are rejected). -/
theorem parseBen_bytes_digit (fuel : Nat) :
    ∀ input i depth s j,
      parseBen fuel input i depth = some (.ok (.bytes s, j)) →
      ∃ b, input.get? i = some b ∧ isDigitByte b = true := by
  intro input i depth s j h
  cases fuel with
  | zero => exact Option.noConfusion h
  | succ f =>
    simp only [parseBen] at h
    split at h
    · simp at h
    · split at h
      · simp at h
      · split at h
        · simp at h
        · rename_i b heq
          split at h
          · split at h
            · simp at h
            · split at h
              · simp at h
              · split at h
                · simp at h
                · simp at h
          · split at h
            · obtain ⟨xs, hxs⟩ := parseItemsBen_shape f input _ depth _ _ j h
              exact absurd hxs (by simp)
            · split at h
              · obtain ⟨xs, hxs⟩ := parsePairsBen_shape f input _ depth _ _ j h
                exact absurd hxs (by simp)
              · split at h
                · rename_i hdig
                  exact ⟨b, heq, hdig⟩
                · simp at h

/-- If the decoder cannot succeed, the wrapper reports an error. -/
theorem pbwd_error_of_not_ok {input : List Nat} {i depth : Nat}
    (h : ∀ r, parseBen (benFuel input) input i depth ≠ some (.ok r)) :
    ∃ e, parse_bencode_with_depth input i depth = .error e := by
  cases hres : parseBen (benFuel input) input i depth with
  | none =>
    exact ⟨"bencode fuel exhausted", by
      simp only [parse_bencode_with_depth, hres]⟩
  | some r =>
    cases r with
    | error e => exact ⟨e, by simp only [parse_bencode_with_depth, hres]⟩
    | ok p => exact absurd hres (h p)

/-- A successful wrapper result comes from a successful decoder run. -/
theorem pbwd_ok_elim {input : List Nat} {i depth : Nat} {v : BVal} {j : Nat}
    (h : parse_bencode_with_depth input i depth = .ok (v, j)) :
    parseBen (benFuel input) input i depth = some (.ok (v, j)) := by
  unfold parse_bencode_with_depth at h
  cases hres : parseBen (benFuel input) input i depth with
  | none =>
    rw [hres] at h
    exact Except.noConfusion h
  | some r =>
    rw [hres] at h
    simp only at h
    exact congrArg some h

/-- Oversized input is rejected before any parsing. -/
theorem parseBen_size_err (f : Nat) (input : List Nat) (i depth : Nat)
    (hs : input.length > MAX_BENCODE_SIZE) (r : BVal × Nat) :
    parseBen (f + 1) input i depth ≠ some (.ok r) := by
  simp only [parseBen]
  split
  · simp
  · simp

/-- A depth counter beyond the bound is rejected on entry. -/
theorem parseBen_depth_err (f : Nat) (input : List Nat) (i depth : Nat)
    (hd : depth > MAX_BENCODE_DEPTH) (r : BVal × Nat) :
    parseBen (f + 1) input i depth ≠ some (.ok r) := by
  simp only [parseBen]
  split
  · simp
  · rename_i h1
    exact absurd hd h1

set_option maxHeartbeats 2000000 in
/-- An integer token whose digit run exceeds the bound (21 bytes none
of which terminate it) is rejected. -/
theorem parseBen_int_run_err (f : Nat) (input : List Nat) (i depth : Nat)
    (hb : input.get? i = some 105)
    (hrun : 21 ≤ ((input.drop (i + 1)).takeWhile (fun b => b != 101)).length)
    (r : BVal × Nat) :
    parseBen (f + 1) input i depth ≠ some (.ok r) := by
  have hlen : i + 1 + 21 ≤ input.length := by
    have h1 := takeWhileLen_le (fun b => b != 101) (input.drop (i + 1))
    rw [List.length_drop] at h1
    omega
  have hrunL : runUntil 101 20 input (i + 1) = 20 := by
    unfold runUntil
    omega
  obtain ⟨x, hx, hpx⟩ :=
    takeWhile_get_of_lt (fun b => b != 101) (input.drop (i + 1)) 20 (by omega)
  rw [List.get?_drop] at hx
  have hxne : x ≠ 101 := by simpa using hpx
  simp only [parseBen]
  split
  · simp
  · split
    · simp
    · split
      · rename_i hnone
        rw [hnone] at hb
        exact Option.noConfusion hb
      · rename_i b heq
        rw [heq] at hb
        have hb105 := Option.some.inj hb
        subst hb105
        rw [if_pos rfl, hrunL]
        rw [if_neg (by omega)]
        rw [if_pos ⟨by omega, by
          rw [hx]
          intro hcon
          exact hxne (Option.some.inj hcon)⟩]
        intro hcon
        exact Except.noConfusion (Option.some.inj hcon)

set_option maxHeartbeats 2000000 in
/-- A byte-string length prefix whose digit run exceeds the bound (11
bytes none of which terminate it) is rejected. -/
theorem parseBen_len_run_err (f : Nat) (input : List Nat) (i depth : Nat)
    (b : Nat) (hb : input.get? i = some b) (hdig : isDigitByte b = true)
    (hrun : 11 ≤ ((input.drop i).takeWhile (fun x => x != 58)).length)
    (r : BVal × Nat) :
    parseBen (f + 1) input i depth ≠ some (.ok r) := by
  have hlen : i + 11 ≤ input.length := by
    have h1 := takeWhileLen_le (fun x => x != 58) (input.drop i)
    rw [List.length_drop] at h1
    omega
  have hrunL : runUntil 58 10 input i = 10 := by
    unfold runUntil
    omega
  obtain ⟨x, hx, hpx⟩ :=
    takeWhile_get_of_lt (fun x => x != 58) (input.drop i) 10 (by omega)
  rw [List.get?_drop] at hx
  have hxne : x ≠ 58 := by simpa using hpx
  have hb105 : b ≠ 105 := by
    intro hc
    rw [hc] at hdig
    simp [isDigitByte] at hdig
  have hb108 : b ≠ 108 := by
    intro hc
    rw [hc] at hdig
    simp [isDigitByte] at hdig
  have hb100 : b ≠ 100 := by
    intro hc
    rw [hc] at hdig
    simp [isDigitByte] at hdig
  simp only [parseBen]
  split
  · simp
  · split
    · simp
    · split
      · rename_i hnone
        rw [hnone] at hb
        exact Option.noConfusion hb
      · rename_i b2 heq
        rw [heq] at hb
        have hbb := Option.some.inj hb
        subst hbb
        rw [if_neg hb105, if_neg hb108, if_neg hb100, if_pos hdig, hrunL]
        rw [if_neg (by omega)]
        rw [if_pos ⟨by omega, by
          rw [hx]
          intro hcon
          exact hxne (Option.some.inj hcon)⟩]
        intro hcon
        exact Except.noConfusion (Option.some.inj hcon)

set_option maxHeartbeats 2000000 in
/-- A dictionary whose first key token is not a byte-string (its first
byte is neither a digit nor the dictionary terminator) is rejected. -/
theorem parseBen_dictkey_err (f : Nat) (input : List Nat) (i depth : Nat)
    (c : Nat) (hb : input.get? i = some 100) (hc : input.get? (i + 1) = some c)
    (hce : c ≠ 101) (hcd : isDigitByte c = false) (r : BVal × Nat) :
    parseBen (f + 2) input i depth ≠ some (.ok r) := by
  intro hok
  simp only [parseBen] at hok
  split at hok
  · simp at hok
  · split at hok
    · simp at hok
    · split at hok
      · rename_i hnone
        rw [hnone] at hb
        exact Option.noConfusion hb
      · rename_i b heq
        rw [heq] at hb
        have hbb := Option.some.inj hb
        subst hbb
        rw [if_neg (by decide), if_neg (by decide), if_pos rfl] at hok
        simp only [parsePairsBen, hc] at hok
        rw [if_neg hce] at hok
        rw [if_neg (by decide)] at hok
        cases hkey : parseBen f input (i + 1) (depth + 1) with
        | none =>
          rw [hkey] at hok
          exact Option.noConfusion hok
        | some kr =>
          rw [hkey] at hok
          cases kr with
          | error e => simp at hok
          | ok p =>
            obtain ⟨k, ni⟩ := p
            simp only at hok
            cases k with
            | bytes kb =>
              obtain ⟨b2, hb2, hdig2⟩ :=
                parseBen_bytes_digit f input (i + 1) (depth + 1) kb ni hkey
              have hbc : b2 = c := Option.some.inj (hb2.symm.trans hc)
              rw [hbc] at hdig2
              exact Bool.noConfusion (hdig2.symm.trans hcd)
            | int n => simp at hok
            | list xs => simp at hok
            | dict xs => simp at hok

/-- C4: for every input, the bencode parser fails with a parse error
rather than returning a value whenever the input exceeds the maximum
total size (100 MiB), the depth counter exceeds the maximum depth
(100) or a parse would build a value nested beyond it, an integer or
length-prefix digit run exceeds its digit-run bound, a single
byte-string length exceeds 10 MiB, a list or dictionary exceeds
100,000 elements, or a dictionary key is not a byte-string.  The size
limits appear in contrapositive form: any successfully parsed value
satisfies every limit (`bvLimitsOk`), so a violating value is never
returned. -/
theorem c4_bencode_limit_failures :
    (∀ (input : List Nat) (i depth : Nat), input.length > MAX_BENCODE_SIZE →
       ∃ e, parse_bencode_with_depth input i depth = .error e) ∧
    (∀ (input : List Nat) (i depth : Nat), depth > MAX_BENCODE_DEPTH →
       ∃ e, parse_bencode_with_depth input i depth = .error e) ∧
    (∀ (input : List Nat) (i depth : Nat) (v : BVal) (j : Nat),
       parse_bencode_with_depth input i depth = .ok (v, j) →
       input.length ≤ MAX_BENCODE_SIZE ∧
       bvDepth v + depth ≤ MAX_BENCODE_DEPTH + 1 ∧ bvLimitsOk v = true) ∧
    (∀ (input : List Nat) (i depth : Nat), input.get? i = some 105 →
       21 ≤ ((input.drop (i + 1)).takeWhile (fun b => b != 101)).length →
       ∃ e, parse_bencode_with_depth input i depth = .error e) ∧
    (∀ (input : List Nat) (i depth b : Nat), input.get? i = some b →
       isDigitByte b = true →
       11 ≤ ((input.drop i).takeWhile (fun x => x != 58)).length →
       ∃ e, parse_bencode_with_depth input i depth = .error e) ∧
    (∀ (input : List Nat) (i depth c : Nat), input.get? i = some 100 →
       input.get? (i + 1) = some c → c ≠ 101 → isDigitByte c = false →
       ∃ e, parse_bencode_with_depth input i depth = .error e) := by
  refine ⟨?_, ?_, ?_, ?_, ?_, ?_⟩
  · intro input i depth hs
    apply pbwd_error_of_not_ok
    intro r
    show parseBen (2 * (input.length + 1) + 1) input i depth ≠ some (.ok r)
    exact parseBen_size_err _ input i depth hs r
  · intro input i depth hd
    apply pbwd_error_of_not_ok
    intro r
    show parseBen (2 * (input.length + 1) + 1) input i depth ≠ some (.ok r)
    exact parseBen_depth_err _ input i depth hd r
  · intro input i depth v j hok
    have hp := pbwd_ok_elim hok
    have hM := (parse_master (benFuel input)).1 input i depth v j hp
    refine ⟨?_, hM.2.2.2.1, hM.2.2.2.2⟩
    by_contra hc
    exact parseBen_size_err (2 * (input.length + 1)) input i depth
      (by omega) (v, j) hp
  · intro input i depth hb hrun
    apply pbwd_error_of_not_ok
    intro r
    show parseBen (2 * (input.length + 1) + 1) input i depth ≠ some (.ok r)
    exact parseBen_int_run_err _ input i depth hb hrun r
  · intro input i depth b hb hdig hrun
    apply pbwd_error_of_not_ok
    intro r
    show parseBen (2 * (input.length + 1) + 1) input i depth ≠ some (.ok r)
    exact parseBen_len_run_err _ input i depth b hb hdig hrun r
  · intro input i depth c hb hc hce hcd
    apply pbwd_error_of_not_ok
    intro r hok
    obtain ⟨g, hg⟩ : ∃ g, benFuel input = g + 2 :=
      ⟨2 * input.length + 1, by simp only [benFuel]; omega⟩
    rw [hg] at hok
    exact parseBen_dictkey_err g input i depth c hb hc hce hcd r hok

/-- Witness for C4: each limit-violation conjunct instantiated at a
concrete input, and the success-bound conjunct instantiated at the
parse of `"i3e"`. -/
theorem c4_bencode_limit_failures_witness :
    (∃ e, parse_bencode_with_depth (List.replicate (MAX_BENCODE_SIZE + 1) 0)
       0 0 = .error e) ∧
    (∃ e, parse_bencode_with_depth [] 0 (MAX_BENCODE_DEPTH + 1) = .error e) ∧
    (([105, 51, 101] : List Nat).length ≤ MAX_BENCODE_SIZE ∧
       bvDepth (.int 3) + 0 ≤ MAX_BENCODE_DEPTH + 1 ∧
       bvLimitsOk (.int 3) = true) ∧
    (∃ e, parse_bencode_with_depth (105 :: List.replicate 21 48) 0 0 =
       .error e) ∧
    (∃ e, parse_bencode_with_depth (List.replicate 11 48) 0 0 = .error e) ∧
    (∃ e, parse_bencode_with_depth [100, 105] 0 0 = .error e) :=
  ⟨c4_bencode_limit_failures.1 _ 0 0 (by rw [List.length_replicate]; omega),
   c4_bencode_limit_failures.2.1 [] 0 _ (by omega),
   c4_bencode_limit_failures.2.2.1 [105, 51, 101] 0 0 (.int 3) 3 (by rfl),
   c4_bencode_limit_failures.2.2.2.1 _ 0 0 (by rfl) (by decide),
   c4_bencode_limit_failures.2.2.2.2.1 _ 0 0 48 (by rfl) (by rfl) (by decide),
   c4_bencode_limit_failures.2.2.2.2.2 [100, 105] 0 0 105 (by rfl) (by rfl)
     (by decide) (by rfl)⟩

/-- C10: the bencode parser is total and terminating: for every byte
input, starting index and depth, `parse_bencode_with_depth` returns
either an error or a parsed value together with the index just past
the consumed bytes, which strictly advances the starting index and
stays within the input.  Totality is witnessed by the function being a
Lean definition whose recursion is structurally bounded, with
`parse_fuel` showing the bound can never be hit. -/
theorem c10_bencode_terminating (input : List Nat) (i depth : Nat) :
    (∃ e, parse_bencode_with_depth input i depth = .error e) ∨
    (∃ v j, parse_bencode_with_depth input i depth = .ok (v, j) ∧
       i < j ∧ j ≤ input.length) := by
  cases hres : parseBen (benFuel input) input i depth with
  | none =>
    exact absurd hres ((parse_fuel (benFuel input)).1 input i depth
      (by simp only [benFuel]; omega))
  | some r =>
    cases r with
    | error e =>
      refine Or.inl ⟨e, ?_⟩
      simp only [parse_bencode_with_depth, hres]
    | ok p =>
      obtain ⟨v, j⟩ := p
      have hM := (parse_master (benFuel input)).1 input i depth v j hres
      refine Or.inr ⟨v, j, ?_, hM.1, hM.2.1⟩
      simp only [parse_bencode_with_depth, hres]

/-! ### Registry and kill-switch operations

The Rust functions mutate through `&mut OrcState` and return
`Result<...>`; the embeddings return the result paired with the
(possibly unchanged) state. -/

/-- Shallow embedding of `set_running` (lib.rs:1453-1469). -/
def set_running (s : OrcState) (id : String) (running : Bool) :
    Except String Unit × OrcState :=
  match alLookup s.torrents id with
  | none => (.error "Not found", s)
  | some rec0 =>
    let t := { rec0.torrent with running := running }
    let rt0 := { rec0.runtime with running := running }
    let rt :=
      if running then
        { rt0 with
          state :=
            if rt0.downloaded_bytes ≥ rt0.total_bytes then TorrentState.Seeding
            else TorrentState.Downloading }
      else
        { rt0 with
          down_rate_bps := 0
          up_rate_bps := 0
          state := TorrentState.Stopped }
    (.ok (),
      { s with torrents := alUpdate s.torrents id { torrent := t, runtime := rt } })

/-- Patch request (`struct PatchKillSwitchRequest`). -/
structure PatchKillSwitchRequest where
  enabled : Option Bool
  scope : Option KillSwitchScope
  grace_period_sec : Option Nat
  triggers : Option KillSwitchTriggers
  deriving DecidableEq, Repr

/-- Shallow embedding of `patch_kill_switch` (lib.rs:1498-1518);
`nowMs` models `now_ms()`.  Returns the updated state and the cloned
config the Rust function returns.  Note the function never consults
VPN connectivity. -/
def patch_kill_switch (nowMs : Nat) (s : OrcState)
    (req : PatchKillSwitchRequest) : OrcState × KillSwitchConfig :=
  let ks0 := s.kill_switch
  let ks1 :=
    match req.enabled with
    | some enabled =>
      { ks0 with
        enabled := enabled
        enforcement_state :=
          if enabled then KillSwitchState.Armed else KillSwitchState.Disarmed
        last_enforcement_ms := some nowMs }
    | none => ks0
  let ks2 :=
    match req.scope with
    | some sc => { ks1 with scope := sc }
    | none => ks1
  let ks3 :=
    match req.grace_period_sec with
    | some gp => { ks2 with grace_period_sec := gp }
    | none => ks2
  let ks4 :=
    match req.triggers with
    | some tr => { ks3 with triggers := tr }
    | none => ks3
  ({ s with kill_switch := ks4 }, ks4)

/-! ### The reconciliation loop `tick` (lib.rs:1590-1769)

`tick` reads two clocks (`Instant::now()` → `now`, `now_ms()` →
`nowMs`), the VPN detector (`is_vpn_connected()` → `vpn`) and the
transfer engine (`api_stats_v1` → `engine`, keyed by `rqbit_id`); all
four are oracle parameters of the embedding. -/

/-- Exact-arithmetic counterpart of the source's f64 rate computation
`(delta as f64 / dtSec) as u64` with `dtSec = (elapsedMs/1000).max
(0.001)`: the floored rational value `delta * 1000 / max elapsedMs 1`. -/
def rateBps (delta elapsedMs : Nat) : Nat := delta * 1000 / max elapsedMs 1

/-- Bounded push used by the heartbeat ring: `push` followed by
`remove(0)` when over the cap. -/
def pushCap (cap : Nat) (xs : List Nat) (x : Nat) : List Nat :=
  let ys := xs ++ [x]
  if ys.length > cap then ys.drop 1 else ys

/-- Heartbeat cadence (`HEARTBEAT_SAMPLE_INTERVAL_MS` in `tick`). -/
def HEARTBEAT_SAMPLE_INTERVAL_MS : Nat := 200

/-- Heartbeat ring size (`HEARTBEAT_MAX_SAMPLES` in `tick`). -/
def HEARTBEAT_MAX_SAMPLES : Nat := 120

/-- Heartbeat-sampling phase of `tick` for one runtime
(lib.rs:1594-1620); `saturating_sub` is `Nat` subtraction. -/
def tickHeartbeat (now : Nat) (rt : TorrentRuntime) : TorrentRuntime :=
  let elapsed_ms := now - rt.heartbeat_last_sample
  if elapsed_ms ≥ HEARTBEAT_SAMPLE_INTERVAL_MS then
    if rt.running then
      let bytes_delta := rt.downloaded_bytes - rt.heartbeat_last_bytes
      let bytes_per_sec := rateBps bytes_delta elapsed_ms
      { rt with
        heartbeat_samples :=
          pushCap HEARTBEAT_MAX_SAMPLES rt.heartbeat_samples bytes_per_sec
        heartbeat_last_sample := now
        heartbeat_last_bytes := rt.downloaded_bytes }
    else
      { rt with
        heartbeat_samples := pushCap HEARTBEAT_MAX_SAMPLES rt.heartbeat_samples 0
        heartbeat_last_sample := now }
  else rt

/-- Stops a running torrent at kill-switch engagement
(lib.rs:1631-1639); non-running records are untouched. -/
def killSwitchStopRecord (rec0 : TorrentRecord) : TorrentRecord :=
  if rec0.runtime.running then
    { torrent := { rec0.torrent with running := false }
      runtime := { rec0.runtime with
        running := false
        state := TorrentState.Stopped
        down_rate_bps := 0
        up_rate_bps := 0 } }
  else rec0

/-- Kill-switch state-machine advancement inside `tick`
(lib.rs:1625-1661). -/
def tickKillSwitchAdvance (vpn : Bool) (nowMs : Nat) (s : OrcState) : OrcState :=
  match s.kill_switch.enforcement_state with
  | KillSwitchState.Armed =>
    if vpn = false then
      { s with
        kill_switch := { s.kill_switch with
          enforcement_state := KillSwitchState.Engaged
          last_enforcement_ms := some nowMs }
        torrents := s.torrents.map fun kv => (kv.1, killSwitchStopRecord kv.2) }
    else s
  | KillSwitchState.Engaged =>
    if vpn = true then
      { s with
        kill_switch := { s.kill_switch with
          enforcement_state := KillSwitchState.Armed
          last_enforcement_ms := some nowMs } }
    else s
  | KillSwitchState.Releasing =>
    if vpn = true then
      { s with
        kill_switch := { s.kill_switch with
          enforcement_state := KillSwitchState.Armed
          last_enforcement_ms := some nowMs } }
    else s
  | KillSwitchState.Disarmed =>
    if vpn = true then
      { s with
        kill_switch := { s.kill_switch with
          enforcement_state := KillSwitchState.Armed
          last_enforcement_ms := some nowMs } }
    else s

/-- Kill-switch advancement plus the effective-policy
`network_allowed` maintenance, as performed once per `tick`
(lib.rs:1621-1674). -/
def tickKillSwitchPolicy (vpn : Bool) (nowMs : Nat) (s : OrcState) : OrcState :=
  if s.kill_switch.enabled = true then
    let s1 := tickKillSwitchAdvance vpn nowMs s
    if s1.policy.effective.network_allowed ≠ vpn then
      { s1 with
        policy := { s1.policy with
          effective := { s1.policy.effective with network_allowed := vpn }
          version := s1.policy.version + 1
          last_updated_ms := nowMs } }
    else s1
  else
    if s.policy.effective.network_allowed = false then
      { s with
        policy := { s.policy with
          effective := { s.policy.effective with network_allowed := true }
          version := s.policy.version + 1
          last_updated_ms := nowMs } }
    else s

/-- Engine stats as consumed by `tick`: the optional fields the
source extracts from `api_stats_v1`'s serialized response
(lib.rs:1698-1707).  The `serde_json::to_value` failure branch cannot
occur for this plain data and is not modelled. -/
structure EngineStatsV where
  total_bytes : Option Nat
  progress_bytes : Option Nat
  downloaded_bytes : Option Nat
  uploaded_bytes : Option Nat
  finished : Option Bool
  state : Option String
  error : Option String
  file_progress : Option (List Nat)
  deriving DecidableEq, Repr

/-- File-completion update from an engine `file_progress` array
(lib.rs:1754-1760): entry `i` of the array updates file `i`. -/
def updateFilesFromArr (arr : List Nat) (files : List TorrentFileEntry) :
    List TorrentFileEntry :=
  files.mapIdx fun idx f =>
    match arr.get? idx with
    | some p =>
      { f with downloaded := decide (p ≥ f.size) && decide (f.priority ≠ "skip") }
    | none => f

/-- Maps the engine's status string and finished flag to the local
state (lib.rs:1725-1743); the explicit `"live"` arm and the unknown
fallback arm of the source are identical. -/
def mapEngineState (state_str : String) (finished : Bool) : TorrentState :=
  if state_str = "paused" then TorrentState.Stopped
  else if state_str = "initializing" then TorrentState.Checking
  else if state_str = "error" then TorrentState.Error
  else if finished then TorrentState.Seeding
  else TorrentState.Downloading

/-- Engine-stats phase of `tick` for one record (lib.rs:1676-1768). -/
def tickStatsRecord (engine : Nat → Except String EngineStatsV) (now : Nat)
    (rec0 : TorrentRecord) : TorrentRecord :=
  match engine rec0.runtime.rqbit_id with
  | .error e =>
    { rec0 with
      runtime := { rec0.runtime with
        last_error := some e
        state := TorrentState.Error
        running := false
        down_rate_bps := 0
        up_rate_bps := 0 } }
  | .ok v =>
    let total_bytes := v.total_bytes.getD 0
    let progress_bytes :=
      ((v.progress_bytes).orElse fun _ => v.downloaded_bytes).getD 0
    let uploaded_bytes := v.uploaded_bytes.getD 0
    let finished := v.finished.getD false
    let state_str := v.state.getD "error"
    let err := v.error
    let elapsedMs := now - rec0.runtime.last_sample
    let down_delta := progress_bytes - rec0.runtime.last_downloaded_bytes
    let up_delta := uploaded_bytes - rec0.runtime.last_uploaded_bytes
    let st0 := mapEngineState state_str finished
    let stOv : TorrentState × Option StateOverride :=
      match rec0.runtime.state_override with
      | some ov => if now < ov.untilMs then (ov.state, some ov) else (st0, none)
      | none => (st0, none)
    let runningNew : Bool :=
      match stOv.1 with
      | TorrentState.Stopped => false
      | TorrentState.Error => false
      | _ => true
    let files :=
      match v.file_progress with
      | some arr => updateFilesFromArr arr rec0.runtime.files
      | none =>
        if finished then
          rec0.runtime.files.map fun f =>
            if f.priority ≠ "skip" then { f with downloaded := true } else f
        else rec0.runtime.files
    { torrent := { rec0.torrent with running := runningNew }
      runtime := { rec0.runtime with
        down_rate_bps := rateBps down_delta elapsedMs
        up_rate_bps := rateBps up_delta elapsedMs
        last_sample := now
        last_downloaded_bytes := progress_bytes
        last_uploaded_bytes := uploaded_bytes
        total_bytes := total_bytes
        downloaded_bytes := progress_bytes
        uploaded_bytes := uploaded_bytes
        last_error := err
        state := stOv.1
        state_override := stOv.2
        running := runningNew
        files := files } }

/-- Shallow embedding of `tick` (lib.rs:1590-1769): heartbeat
sampling for every record, then the kill-switch/policy step (once per
cycle), then the per-torrent engine-stats loop. -/
def tick (engine : Nat → Except String EngineStatsV) (vpn : Bool)
    (now nowMs : Nat) (s : OrcState) : OrcState :=
  let s1 := { s with torrents := s.torrents.map fun kv =>
    (kv.1, { kv.2 with runtime := tickHeartbeat now kv.2.runtime }) }
  let s2 := tickKillSwitchPolicy vpn nowMs s1
  { s2 with torrents := s2.torrents.map fun kv =>
    (kv.1, tickStatsRecord engine now kv.2) }

theorem alLookup_map {α β : Type} (f : α → β) (l : List (String × α)) (k : String) :
    alLookup (l.map fun kv => (kv.1, f kv.2)) k = (alLookup l k).map f := by
  induction l with
  | nil => rfl
  | cons kv rest ih =>
    by_cases hk : (kv.1 == k) = true
    · simp only [List.map, alLookup_cons, hk, if_pos]
      rfl
    · simp only [List.map, alLookup_cons, hk, if_neg, Bool.false_eq_true,
        if_false] at *
      exact ih

theorem tkAdvance_policy (vpn : Bool) (nowMs : Nat) (s : OrcState) :
    (tickKillSwitchAdvance vpn nowMs s).policy = s.policy := by
  unfold tickKillSwitchAdvance
  split <;> split <;> rfl

theorem tkAdvance_torrents (vpn : Bool) (nowMs : Nat) (s : OrcState) :
    (tickKillSwitchAdvance vpn nowMs s).torrents =
      if s.kill_switch.enforcement_state = KillSwitchState.Armed ∧ vpn = false
      then s.torrents.map fun kv => (kv.1, killSwitchStopRecord kv.2)
      else s.torrents := by
  unfold tickKillSwitchAdvance
  cases hst : s.kill_switch.enforcement_state <;> cases vpn <;> simp

theorem tkp_kill_switch (vpn : Bool) (nowMs : Nat) (s : OrcState) :
    (tickKillSwitchPolicy vpn nowMs s).kill_switch =
      if s.kill_switch.enabled = true then
        (tickKillSwitchAdvance vpn nowMs s).kill_switch
      else s.kill_switch := by
  unfold tickKillSwitchPolicy
  by_cases hen : s.kill_switch.enabled = true
  · rw [if_pos hen, if_pos hen]
    dsimp only
    split <;> rfl
  · rw [if_neg hen, if_neg hen]
    split <;> rfl

theorem tkp_torrents (vpn : Bool) (nowMs : Nat) (s : OrcState) :
    (tickKillSwitchPolicy vpn nowMs s).torrents =
      if s.kill_switch.enabled = true then
        (tickKillSwitchAdvance vpn nowMs s).torrents
      else s.torrents := by
  unfold tickKillSwitchPolicy
  by_cases hen : s.kill_switch.enabled = true
  · rw [if_pos hen, if_pos hen]
    dsimp only
    split <;> rfl
  · rw [if_neg hen, if_neg hen]
    split <;> rfl

theorem tkp_policy_eq (vpn : Bool) (nowMs : Nat) (s : OrcState) :
    (tickKillSwitchPolicy vpn nowMs s).policy.effective.network_allowed =
      (if s.kill_switch.enabled = true then vpn else true) ∧
    ((tickKillSwitchPolicy vpn nowMs s).policy.effective.network_allowed ≠
        s.policy.effective.network_allowed →
      (tickKillSwitchPolicy vpn nowMs s).policy.version = s.policy.version + 1 ∧
      (tickKillSwitchPolicy vpn nowMs s).policy.last_updated_ms = nowMs) ∧
    ((tickKillSwitchPolicy vpn nowMs s).policy.effective.network_allowed =
        s.policy.effective.network_allowed →
      (tickKillSwitchPolicy vpn nowMs s).policy = s.policy) := by
  unfold tickKillSwitchPolicy
  by_cases hen : s.kill_switch.enabled = true
  · rw [if_pos hen, if_pos hen]
    dsimp only
    rw [tkAdvance_policy]
    by_cases hflip : s.policy.effective.network_allowed ≠ vpn
    · rw [if_pos hflip]
      exact ⟨rfl, fun _ => ⟨rfl, rfl⟩, fun heq => absurd heq.symm hflip⟩
    · rw [if_neg hflip]
      push_neg at hflip
      rw [tkAdvance_policy]
      exact ⟨hflip, fun hne => absurd rfl hne, fun _ => rfl⟩
  · rw [if_neg hen, if_neg hen]
    by_cases hfb : s.policy.effective.network_allowed = false
    · rw [if_pos hfb]
      refine ⟨rfl, fun _ => ⟨rfl, rfl⟩, fun heq => ?_⟩
      rw [hfb] at heq
      simp at heq
    · rw [if_neg hfb]
      have htrue : s.policy.effective.network_allowed = true :=
        eq_true_of_ne_false hfb
      exact ⟨htrue, fun hne => absurd rfl hne, fun _ => rfl⟩

theorem tickHeartbeat_rqbit_id (now : Nat) (rt : TorrentRuntime) :
    (tickHeartbeat now rt).rqbit_id = rt.rqbit_id := by
  unfold tickHeartbeat
  dsimp only
  split
  · split <;> rfl
  · rfl

theorem killSwitchStopRecord_rqbit_id (rec0 : TorrentRecord) :
    (killSwitchStopRecord rec0).runtime.rqbit_id = rec0.runtime.rqbit_id := by
  unfold killSwitchStopRecord
  split <;> rfl

theorem tickStatsRecord_congr (engine engine2 : Nat → Except String EngineStatsV)
    (now : Nat) (r : TorrentRecord)
    (h : engine2 r.runtime.rqbit_id = engine r.runtime.rqbit_id) :
    tickStatsRecord engine2 now r = tickStatsRecord engine now r := by
  unfold tickStatsRecord
  rw [h]

theorem alLookup_map_hb (now : Nat) (l : List (String × TorrentRecord))
    (k : String) :
    alLookup (l.map fun kv =>
      (kv.1, { kv.2 with runtime := tickHeartbeat now kv.2.runtime })) k =
      (alLookup l k).map fun r => { r with runtime := tickHeartbeat now r.runtime } :=
  alLookup_map (fun r => { r with runtime := tickHeartbeat now r.runtime }) l k

theorem alLookup_map_stop (l : List (String × TorrentRecord)) (k : String) :
    alLookup (l.map fun kv => (kv.1, killSwitchStopRecord kv.2)) k =
      (alLookup l k).map killSwitchStopRecord :=
  alLookup_map killSwitchStopRecord l k

theorem alLookup_map_stats (engine : Nat → Except String EngineStatsV)
    (now : Nat) (l : List (String × TorrentRecord)) (k : String) :
    alLookup (l.map fun kv => (kv.1, tickStatsRecord engine now kv.2)) k =
      (alLookup l k).map (tickStatsRecord engine now) :=
  alLookup_map (tickStatsRecord engine now) l k

/-- Per-id effect of a full `tick`: each record is processed through
the heartbeat phase, the (global-condition) kill-switch stop, and its
own engine-stats update, independently of every other record. -/
theorem tick_lookup (engine : Nat → Except String EngineStatsV) (vpn : Bool)
    (now nowMs : Nat) (s : OrcState) (id : String) :
    alLookup (tick engine vpn now nowMs s).torrents id =
      (alLookup s.torrents id).map fun rec0 =>
        tickStatsRecord engine now
          (if s.kill_switch.enabled = true ∧
              s.kill_switch.enforcement_state = KillSwitchState.Armed ∧
              vpn = false
           then killSwitchStopRecord
             { rec0 with runtime := tickHeartbeat now rec0.runtime }
           else { rec0 with runtime := tickHeartbeat now rec0.runtime }) := by
  unfold tick
  dsimp only
  rw [alLookup_map_stats, tkp_torrents, tkAdvance_torrents]
  dsimp only
  by_cases hen : s.kill_switch.enabled = true
  · rw [if_pos hen]
    by_cases harm : s.kill_switch.enforcement_state = KillSwitchState.Armed ∧
        vpn = false
    · rw [if_pos harm, alLookup_map_stop, alLookup_map_hb]
      cases alLookup s.torrents id with
      | none => rfl
      | some rec0 =>
        simp only [Option.map_some']
        rw [if_pos ⟨hen, harm.1, harm.2⟩]
    · rw [if_neg harm, alLookup_map_hb]
      cases alLookup s.torrents id with
      | none => rfl
      | some rec0 =>
        simp only [Option.map_some']
        rw [if_neg fun hc => harm ⟨hc.2.1, hc.2.2⟩]
  · rw [if_neg hen, alLookup_map_hb]
    cases alLookup s.torrents id with
    | none => rfl
    | some rec0 =>
      simp only [Option.map_some']
      rw [if_neg fun hc => hen hc.1]

/-! ### Concrete sample states for witness instantiations -/

/-- Concrete desired policy mirroring the daemon-start defaults in
`new_state`. -/
def sampleDesired : DesiredPolicy where
  anonymous_mode := false
  peer_encryption := TriState.Prefer
  dht_hardening := true
  enforce_private_torrents := false
  ip_blocklist := false
  kill_switch := false
  bind_interface_only := false
  overlay_padding := PaddingLevel.Off
  sybil_resistance := false
  relay_pow_required := false
  relay_subnet_diversity := false
  relay_reputation_weighting := false
  ipv6_enabled := true
  upnp_natpmp_enabled := true
  circuit_rotation_enabled := false
  deny_direct_exits := false
  minimize_fingerprinting := false
  profile := some PolicyProfile.Standard

/-- Concrete effective policy mirroring the daemon-start defaults. -/
def sampleEffective : EffectivePolicy where
  anonymous_mode := false
  peer_encryption := TriState.Prefer
  dht_hardening := true
  enforce_private_torrents := false
  ip_blocklist := false
  kill_switch := false
  bind_interface_only := false
  overlay_padding := PaddingLevel.Off
  sybil_resistance := false
  relay_pow_required := false
  relay_subnet_diversity := false
  relay_reputation_weighting := false
  ipv6_enabled := true
  upnp_natpmp_enabled := true
  circuit_rotation_enabled := false
  deny_direct_exits := false
  minimize_fingerprinting := false
  profile := some PolicyProfile.Standard
  network_allowed := true
  discovery_allowed := true
  direct_peer_allowed := true

/-- Concrete policy state. -/
def samplePolicy : PolicyState where
  desired := sampleDesired
  effective := sampleEffective
  warnings := []
  disabled := []
  version := 1
  last_updated_ms := 0

/-- Concrete kill-switch config mirroring the daemon-start defaults. -/
def sampleKillSwitch : KillSwitchConfig where
  enabled := false
  scope := KillSwitchScope.TorrentOnly
  vpn_source := { auto_detect := true, allowed_adapters := [] }
  grace_period_sec := 10
  triggers :=
    { pause_all_torrents := true
      stop_seeding := false
      disable_dht_pex_lpd := false
      block_outbound := false }
  enforcement_state := KillSwitchState.Disarmed
  last_enforcement_ms := none

/-- Concrete runtime of a running, partially downloaded torrent. -/
def sampleRuntime : TorrentRuntime where
  rqbit_id := 0
  total_bytes := 100
  downloaded_bytes := 50
  uploaded_bytes := 0
  running := true
  state := TorrentState.Downloading
  down_rate_bps := 5
  up_rate_bps := 3
  peers_seen := 0
  files := []
  last_error := none
  trackers := []
  tracker_state := []
  peer_samples := []
  state_override := none
  last_sample := 0
  last_downloaded_bytes := 0
  last_uploaded_bytes := 0
  heartbeat_samples := []
  heartbeat_last_sample := 0
  heartbeat_last_bytes := 0
  total_pieces_estimate := 10
  piece_availability := List.replicate 10 0
  peer_progress_cache := []

/-- Concrete public record. -/
def sampleTorrent : Torrent where
  id := "t1"
  name := "sample"
  added_at_ms := 0
  running := true
  profile := { mode := TorrentMode.Standard, hops := 0 }
  info_hash_hex := none
  save_path := none

/-- Concrete registry entry. -/
def sampleRecord : TorrentRecord where
  torrent := sampleTorrent
  runtime := sampleRuntime

/-- Concrete container state: one running torrent, switch disabled and
Disarmed. -/
def sampleState : OrcState where
  started_at := 0
  download_dir := "/downloads"
  torrents := [("t1", sampleRecord)]
  policy := samplePolicy
  kill_switch := sampleKillSwitch

/-- Sample state with the switch enabled and Armed. -/
def ksArmedState : OrcState :=
  { sampleState with
    kill_switch := { sampleKillSwitch with
      enabled := true
      enforcement_state := KillSwitchState.Armed } }

/-- Sample state with the switch enabled and Engaged. -/
def ksEngagedState : OrcState :=
  { sampleState with
    kill_switch := { sampleKillSwitch with
      enabled := true
      enforcement_state := KillSwitchState.Engaged } }

/-- Sample state with the switch disabled but `network_allowed` still
false (as left behind by a previous engagement). -/
def sampleStateBlocked : OrcState :=
  { sampleState with
    policy := { samplePolicy with
      effective := { sampleEffective with network_allowed := false } } }

/-- Engine oracle that always succeeds with live stats. -/
def engineOk : Nat → Except String EngineStatsV := fun _ =>
  .ok
    { total_bytes := some 100
      progress_bytes := some 60
      downloaded_bytes := none
      uploaded_bytes := some 1
      finished := some false
      state := some "live"
      error := none
      file_progress := none }

/-- Engine oracle that always fails. -/
def engineFail : Nat → Except String EngineStatsV := fun _ => .error "engine down"

/-- C1: with the kill switch enabled and enforcement Armed, the
kill-switch step of a tick (lib.rs:1621-1648) evaluated with the VPN
not connected transitions to Engaged, stamps `last_enforcement_ms`,
and for every torrent that was running forces `running = false` on
both the runtime and the public record, `state = Stopped`, and both
rates to zero (non-running records are untouched); a later tick's
kill-switch step with the VPN connected again transitions Engaged
back to Armed without changing any torrent (no auto-resume). -/
theorem c1_kill_switch_engage_release (s : OrcState) (nowMs : Nat)
    (hen : s.kill_switch.enabled = true) :
    (s.kill_switch.enforcement_state = KillSwitchState.Armed →
      (tickKillSwitchPolicy false nowMs s).kill_switch.enforcement_state =
          KillSwitchState.Engaged ∧
      (tickKillSwitchPolicy false nowMs s).kill_switch.last_enforcement_ms =
          some nowMs ∧
      (∀ id rec0, alLookup s.torrents id = some rec0 →
        ∃ rec2,
          alLookup (tickKillSwitchPolicy false nowMs s).torrents id =
              some rec2 ∧
          (rec0.runtime.running = true →
            rec2.runtime.running = false ∧ rec2.torrent.running = false ∧
            rec2.runtime.state = TorrentState.Stopped ∧
            rec2.runtime.down_rate_bps = 0 ∧ rec2.runtime.up_rate_bps = 0) ∧
          (rec0.runtime.running = false → rec2 = rec0))) ∧
    (s.kill_switch.enforcement_state = KillSwitchState.Engaged →
      (tickKillSwitchPolicy true nowMs s).kill_switch.enforcement_state =
          KillSwitchState.Armed ∧
      (tickKillSwitchPolicy true nowMs s).kill_switch.last_enforcement_ms =
          some nowMs ∧
      (tickKillSwitchPolicy true nowMs s).torrents = s.torrents) := by
  constructor
  · intro harm
    have hks := tkp_kill_switch false nowMs s
    rw [if_pos hen] at hks
    have htor := tkp_torrents false nowMs s
    rw [if_pos hen, tkAdvance_torrents, if_pos ⟨harm, rfl⟩] at htor
    refine ⟨?_, ?_, ?_⟩
    · rw [hks]
      unfold tickKillSwitchAdvance
      rw [harm]
      rfl
    · rw [hks]
      unfold tickKillSwitchAdvance
      rw [harm]
      rfl
    · intro id rec0 hlook
      refine ⟨killSwitchStopRecord rec0, ?_, ?_, ?_⟩
      · rw [htor, alLookup_map_stop, hlook, Option.map_some']
      · intro hrun
        unfold killSwitchStopRecord
        rw [hrun]
        exact ⟨rfl, rfl, rfl, rfl, rfl⟩
      · intro hstop
        unfold killSwitchStopRecord
        rw [hstop]
        rfl
  · intro heng
    have hks := tkp_kill_switch true nowMs s
    rw [if_pos hen] at hks
    have htor := tkp_torrents true nowMs s
    rw [if_pos hen, tkAdvance_torrents,
      if_neg (fun hc => Bool.noConfusion hc.2)] at htor
    refine ⟨?_, ?_, ?_⟩
    · rw [hks]
      unfold tickKillSwitchAdvance
      rw [heng]
      rfl
    · rw [hks]
      unfold tickKillSwitchAdvance
      rw [heng]
      rfl
    · rw [htor]

/-- Witness for C1: both kill-switch transitions evaluated on a
concrete one-torrent state. -/
theorem c1_kill_switch_engage_release_witness :
    ((tickKillSwitchPolicy false 7 ksArmedState).kill_switch.enforcement_state =
        KillSwitchState.Engaged ∧
      (tickKillSwitchPolicy false 7 ksArmedState).kill_switch.last_enforcement_ms =
        some 7 ∧
      ∃ rec2,
        alLookup (tickKillSwitchPolicy false 7 ksArmedState).torrents "t1" =
            some rec2 ∧
        (sampleRecord.runtime.running = true →
          rec2.runtime.running = false ∧ rec2.torrent.running = false ∧
          rec2.runtime.state = TorrentState.Stopped ∧
          rec2.runtime.down_rate_bps = 0 ∧ rec2.runtime.up_rate_bps = 0) ∧
        (sampleRecord.runtime.running = false → rec2 = sampleRecord)) ∧
    ((tickKillSwitchPolicy true 7 ksEngagedState).kill_switch.enforcement_state =
        KillSwitchState.Armed ∧
      (tickKillSwitchPolicy true 7 ksEngagedState).kill_switch.last_enforcement_ms =
        some 7 ∧
      (tickKillSwitchPolicy true 7 ksEngagedState).torrents =
        ksEngagedState.torrents) := by
  constructor
  · have h := (c1_kill_switch_engage_release ksArmedState 7 rfl).1 rfl
    exact ⟨h.1, h.2.1, h.2.2 "t1" sampleRecord rfl⟩
  · exact (c1_kill_switch_engage_release ksEngagedState 7 rfl).2 rfl

/-- Counterexample for C2: `patch_kill_switch` never consults VPN
connectivity, so enabling the switch moves Disarmed to Armed even
when the VPN is not connected, refuting "on every step a
Disarmed-to-Armed transition only occurs with the VPN connected". -/
theorem c2_counterexample :
    ¬ (∀ (vpn : Bool) (s : OrcState) (req : PatchKillSwitchRequest)
        (nowMs : Nat),
        s.kill_switch.enforcement_state = KillSwitchState.Disarmed →
        (patch_kill_switch nowMs s req).1.kill_switch.enforcement_state =
          KillSwitchState.Armed →
        vpn = true) := by
  intro hclaim
  exact Bool.noConfusion (hclaim false sampleState
    { enabled := some true
      scope := none
      grace_period_sec := none
      triggers := none } 5 rfl rfl)

/-- C2 (amended): on a tick evaluation a Disarmed state moves to
Armed exactly when the switch is enabled and the VPN is connected;
the patch operation that enables the switch, however, forces the
state to Armed unconditionally, regardless of VPN connectivity (and
disabling forces Disarmed). -/
theorem c2_disarmed_to_armed_amended (s : OrcState) (vpn : Bool) (nowMs : Nat) :
    (s.kill_switch.enforcement_state = KillSwitchState.Disarmed →
      ((tickKillSwitchPolicy vpn nowMs s).kill_switch.enforcement_state =
          KillSwitchState.Armed ↔
        (s.kill_switch.enabled = true ∧ vpn = true))) ∧
    (∀ req : PatchKillSwitchRequest, req.enabled = some true →
      (patch_kill_switch nowMs s req).1.kill_switch.enforcement_state =
        KillSwitchState.Armed) ∧
    (∀ req : PatchKillSwitchRequest, req.enabled = some false →
      (patch_kill_switch nowMs s req).1.kill_switch.enforcement_state =
        KillSwitchState.Disarmed) := by
  refine ⟨?_, ?_, ?_⟩
  · intro hdis
    have hks := tkp_kill_switch vpn nowMs s
    by_cases hen : s.kill_switch.enabled = true
    · rw [if_pos hen] at hks
      rw [hks]
      unfold tickKillSwitchAdvance
      rw [hdis]
      cases vpn
      · simp [hdis]
      · simp [hen]
    · rw [if_neg hen] at hks
      rw [hks, hdis]
      simp [hen]
  · intro req hreq
    obtain ⟨en, sc, gp, tr⟩ := req
    simp only at hreq
    subst hreq
    cases sc <;> cases gp <;> cases tr <;> rfl
  · intro req hreq
    obtain ⟨en, sc, gp, tr⟩ := req
    simp only at hreq
    subst hreq
    cases sc <;> cases gp <;> cases tr <;> rfl

/-- Witness for the amended C2 at a concrete Disarmed state. -/
theorem c2_disarmed_to_armed_amended_witness :
    ((tickKillSwitchPolicy true 5 sampleState).kill_switch.enforcement_state =
        KillSwitchState.Armed ↔
      (sampleState.kill_switch.enabled = true ∧ true = true)) ∧
    (patch_kill_switch 5 sampleState
        { enabled := some true
          scope := none
          grace_period_sec := none
          triggers := none }).1.kill_switch.enforcement_state =
      KillSwitchState.Armed ∧
    (patch_kill_switch 5 sampleState
        { enabled := some false
          scope := none
          grace_period_sec := none
          triggers := none }).1.kill_switch.enforcement_state =
      KillSwitchState.Disarmed :=
  ⟨(c2_disarmed_to_armed_amended sampleState true 5).1 rfl,
   (c2_disarmed_to_armed_amended sampleState true 5).2.1 _ rfl,
   (c2_disarmed_to_armed_amended sampleState true 5).2.2 _ rfl⟩

/-- C3: after every tick, `network_allowed` is true whenever the kill
switch is disabled and equal to live VPN connectivity whenever it is
enabled; a tick that flips it bumps the policy version and stamps the
timestamp, and a tick that does not flip it leaves the whole policy
untouched. -/
theorem c3_network_allowed_tracks_vpn
    (engine : Nat → Except String EngineStatsV) (vpn : Bool) (now nowMs : Nat)
    (s : OrcState) :
    (tick engine vpn now nowMs s).policy.effective.network_allowed =
      (if s.kill_switch.enabled = true then vpn else true) ∧
    ((tick engine vpn now nowMs s).policy.effective.network_allowed ≠
        s.policy.effective.network_allowed →
      (tick engine vpn now nowMs s).policy.version = s.policy.version + 1 ∧
      (tick engine vpn now nowMs s).policy.last_updated_ms = nowMs) ∧
    ((tick engine vpn now nowMs s).policy.effective.network_allowed =
        s.policy.effective.network_allowed →
      (tick engine vpn now nowMs s).policy = s.policy) :=
  tkp_policy_eq vpn nowMs
    { s with torrents := s.torrents.map fun kv =>
        (kv.1, { kv.2 with runtime := tickHeartbeat now kv.2.runtime }) }

/-- Witness for C3: a tick that flips the flag (switch disabled but
flag left false) bumps the version and stamps the time; a tick that
does not flip it leaves the policy untouched. -/
theorem c3_network_allowed_tracks_vpn_witness :
    ((tick engineOk false 0 7 sampleStateBlocked).policy.version =
        sampleStateBlocked.policy.version + 1 ∧
      (tick engineOk false 0 7 sampleStateBlocked).policy.last_updated_ms = 7) ∧
    (tick engineOk false 0 7 sampleState).policy = sampleState.policy :=
  ⟨(c3_network_allowed_tracks_vpn engineOk false 0 7 sampleStateBlocked).2.1
     (by decide),
   (c3_network_allowed_tracks_vpn engineOk false 0 7 sampleState).2.2
     (by decide)⟩

theorem tickMid_rqbit_id (now : Nat) (rec0 : TorrentRecord) (c : Prop)
    [Decidable c] :
    (if c then
        killSwitchStopRecord { rec0 with runtime := tickHeartbeat now rec0.runtime }
      else { rec0 with runtime := tickHeartbeat now rec0.runtime }).runtime.rqbit_id =
      rec0.runtime.rqbit_id := by
  split
  · rw [killSwitchStopRecord_rqbit_id]
    exact tickHeartbeat_rqbit_id now rec0.runtime
  · exact tickHeartbeat_rqbit_id now rec0.runtime

theorem tickStatsRecord_err (engine : Nat → Except String EngineStatsV)
    (now : Nat) (r : TorrentRecord) (e : String)
    (h : engine r.runtime.rqbit_id = .error e) :
    tickStatsRecord engine now r =
      { r with runtime := { r.runtime with
          last_error := some e
          state := TorrentState.Error
          running := false
          down_rate_bps := 0
          up_rate_bps := 0 } } := by
  unfold tickStatsRecord
  rw [h]

/-- C6: during tick, a torrent whose engine stats query fails gets
`last_error` recorded, state forced to Error, running forced off and
both rates zeroed; the loop never aborts — every torrent stays
present, and a torrent's final record depends only on the engine's
answer for its own id, so one torrent's failure cannot affect the
others. -/
theorem c6_engine_failure_isolated (engine : Nat → Except String EngineStatsV)
    (vpn : Bool) (now nowMs : Nat) (s : OrcState) :
    (∀ id rec0 e, alLookup s.torrents id = some rec0 →
      engine rec0.runtime.rqbit_id = .error e →
      ∃ rec2,
        alLookup (tick engine vpn now nowMs s).torrents id = some rec2 ∧
        rec2.runtime.last_error = some e ∧
        rec2.runtime.state = TorrentState.Error ∧
        rec2.runtime.running = false ∧
        rec2.runtime.down_rate_bps = 0 ∧ rec2.runtime.up_rate_bps = 0) ∧
    (∀ id, (alLookup (tick engine vpn now nowMs s).torrents id).isSome =
        (alLookup s.torrents id).isSome) ∧
    (∀ (engine2 : Nat → Except String EngineStatsV) id rec0,
      alLookup s.torrents id = some rec0 →
      engine2 rec0.runtime.rqbit_id = engine rec0.runtime.rqbit_id →
      alLookup (tick engine2 vpn now nowMs s).torrents id =
        alLookup (tick engine vpn now nowMs s).torrents id) := by
  refine ⟨?_, ?_, ?_⟩
  · intro id rec0 e hlook herr
    rw [tick_lookup, hlook, Option.map_some']
    refine ⟨_, rfl, ?_⟩
    rw [tickStatsRecord_err engine now _ e (by rw [tickMid_rqbit_id]; exact herr)]
    exact ⟨rfl, rfl, rfl, rfl, rfl⟩
  · intro id
    rw [tick_lookup]
    cases alLookup s.torrents id <;> rfl
  · intro engine2 id rec0 hlook heq
    rw [tick_lookup, tick_lookup, hlook, Option.map_some', Option.map_some']
    congr 1
    apply tickStatsRecord_congr
    rw [tickMid_rqbit_id]
    exact heq

/-- Witness for C6 with an always-failing engine on a concrete
state. -/
theorem c6_engine_failure_isolated_witness :
    ∃ rec2,
      alLookup (tick engineFail true 0 7 sampleState).torrents "t1" =
          some rec2 ∧
      rec2.runtime.last_error = some "engine down" ∧
      rec2.runtime.state = TorrentState.Error ∧
      rec2.runtime.running = false ∧
      rec2.runtime.down_rate_bps = 0 ∧ rec2.runtime.up_rate_bps = 0 :=
  (c6_engine_failure_isolated engineFail true 0 7 sampleState).1 "t1"
    sampleRecord "engine down" rfl rfl

/-- C7: `set_running` on a present id sets both running flags to the
requested value; stopping zeroes both rates and forces Stopped,
starting infers Seeding when `downloaded_bytes` has reached
`total_bytes` and Downloading otherwise; an absent id fails with the
not-found error and leaves the state unchanged. -/
theorem c7_set_running (s : OrcState) (id : String) :
    (∀ rec0, alLookup s.torrents id = some rec0 →
      ∀ running, (set_running s id running).1 = .ok () ∧
        ∃ rec2,
          alLookup (set_running s id running).2.torrents id = some rec2 ∧
          rec2.runtime.running = running ∧ rec2.torrent.running = running ∧
          (running = false → rec2.runtime.down_rate_bps = 0 ∧
            rec2.runtime.up_rate_bps = 0 ∧
            rec2.runtime.state = TorrentState.Stopped) ∧
          (running = true → rec2.runtime.state =
            (if rec0.runtime.downloaded_bytes ≥ rec0.runtime.total_bytes
             then TorrentState.Seeding else TorrentState.Downloading))) ∧
    (alLookup s.torrents id = none →
      ∀ running, set_running s id running = (.error "Not found", s)) := by
  constructor
  · intro rec0 hlook running
    unfold set_running
    rw [hlook]
    dsimp only
    refine ⟨rfl, ?_⟩
    cases running
    · exact ⟨_, alLookup_alUpdate_of_mem s.torrents id _ rec0 hlook,
        rfl, rfl, fun _ => ⟨rfl, rfl, rfl⟩, fun h => Bool.noConfusion h⟩
    · exact ⟨_, alLookup_alUpdate_of_mem s.torrents id _ rec0 hlook,
        rfl, rfl, fun h => Bool.noConfusion h, fun _ => rfl⟩
  · intro hnone running
    unfold set_running
    rw [hnone]

/-- Witness for C7 on a concrete state: stop, start, and the
not-found path. -/
theorem c7_set_running_witness :
    ((set_running sampleState "t1" false).1 = .ok () ∧
      ∃ rec2,
        alLookup (set_running sampleState "t1" false).2.torrents "t1" =
            some rec2 ∧
        rec2.runtime.running = false ∧ rec2.torrent.running = false ∧
        (false = false → rec2.runtime.down_rate_bps = 0 ∧
          rec2.runtime.up_rate_bps = 0 ∧
          rec2.runtime.state = TorrentState.Stopped) ∧
        (false = true → rec2.runtime.state =
          (if sampleRecord.runtime.downloaded_bytes ≥
              sampleRecord.runtime.total_bytes
           then TorrentState.Seeding else TorrentState.Downloading))) ∧
    set_running sampleState "missing" true = (.error "Not found", sampleState) :=
  ⟨(c7_set_running sampleState "t1").1 sampleRecord rfl false,
   (c7_set_running sampleState "missing").2 rfl true⟩

/-! ### Row snapshot (`get_row_snapshot`, lib.rs:1047-1115) -/

/-- Number of heatmap bins (`BINS` in `get_row_snapshot`). -/
def ROW_SNAPSHOT_BINS : Nat := 200

/-- `u32::MAX`, the sentinel of the bin min-availability scan. -/
def U32_MAX : Nat := 4294967295

/-- Heatmap bin (`struct PieceBin`); `have_ratio` is `ℚ` in place of
f64. -/
structure PieceBin where
  have_ratio : ℚ
  min_avail : Nat
  pieces_in_bin : Nat
  deriving DecidableEq, Repr

/-- Row snapshot (`struct TorrentRowSnapshot`). -/
structure TorrentRowSnapshot where
  progress : ℚ
  state : TorrentState
  pieces_bins : List PieceBin
  heartbeat_samples : List Nat
  deriving DecidableEq, Repr

/-- Progress fraction `(downloaded/total).clamp(0,1)` in exact
arithmetic. -/
def progressFrac (downloaded total : Nat) : ℚ :=
  if total = 0 then 0
  else min (max ((downloaded : ℚ) / (total : ℚ)) 0) 1

/-- One iteration of the bin loop (lib.rs:1062-1106). -/
def rowBin (total_pieces pieces_per_bin completed_pieces : Nat)
    (avail : List Nat) (bin_idx : Nat) : PieceBin :=
  let start_piece := bin_idx * pieces_per_bin
  let end_piece := min ((bin_idx + 1) * pieces_per_bin) total_pieces
  if start_piece ≥ total_pieces then
    { have_ratio := 0, min_avail := 0, pieces_in_bin := 0 }
  else
    let pieces_in_bin := end_piece - start_piece
    let have_count := min (completed_pieces - start_piece) pieces_in_bin
    let have_ratio : ℚ :=
      if pieces_in_bin > 0 then (have_count : ℚ) / (pieces_in_bin : ℚ) else 0
    let min_avail :=
      if have_ratio ≥ 1 then U32_MAX
      else
        let m := (List.range' start_piece (end_piece - start_piece)).foldl
          (fun acc piece_idx =>
            match avail.get? piece_idx with
            | some a => if piece_idx ≥ completed_pieces then min acc a else acc
            | none => acc) U32_MAX
        if m = U32_MAX then 0 else m
    { have_ratio := have_ratio, min_avail := min_avail,
      pieces_in_bin := pieces_in_bin }

/-- Shallow embedding of `get_row_snapshot` (lib.rs:1047-1115).
`pieces_per_bin` is the f64 ceiling `total_pieces / BINS`, exact for
every `u32`-sized piece count. -/
def get_row_snapshot (s : OrcState) (id : String) : Option TorrentRowSnapshot :=
  (alLookup s.torrents id).map fun rec0 =>
    let progress :=
      progressFrac rec0.runtime.downloaded_bytes rec0.runtime.total_bytes
    let total_pieces := max rec0.runtime.total_pieces_estimate 1
    let pieces_per_bin :=
      (total_pieces + ROW_SNAPSHOT_BINS - 1) / ROW_SNAPSHOT_BINS
    let completed_pieces := (progress * (total_pieces : ℚ)).floor.toNat
    { progress := progress
      state := rec0.runtime.state
      pieces_bins := (List.range ROW_SNAPSHOT_BINS).map
        (rowBin total_pieces pieces_per_bin completed_pieces
          rec0.runtime.piece_availability)
      heartbeat_samples := rec0.runtime.heartbeat_samples }

/-- C9: for every torrent in the registry, `get_row_snapshot` returns
exactly `ROW_SNAPSHOT_BINS` (200) bins, for every value of
`total_pieces_estimate`, including estimates smaller than the bin
count (surplus bins are emitted with zero pieces). -/
theorem c9_row_snapshot_bins (s : OrcState) (id : String)
    (snap : TorrentRowSnapshot) (h : get_row_snapshot s id = some snap) :
    snap.pieces_bins.length = ROW_SNAPSHOT_BINS := by
  unfold get_row_snapshot at h
  cases hlook : alLookup s.torrents id with
  | none =>
    rw [hlook] at h
    exact Option.noConfusion h
  | some rec0 =>
    rw [hlook] at h
    simp only [Option.map_some'] at h
    have hx := Option.some.inj h
    rw [← hx]
    dsimp only
    rw [List.length_map, List.length_range]

/-- Witness for C9 on a concrete one-torrent state whose estimated
piece count (10) is smaller than the bin count. -/
theorem c9_row_snapshot_bins_witness :
    ((get_row_snapshot sampleState "t1").getD
        { progress := 0
          state := TorrentState.Stopped
          pieces_bins := []
          heartbeat_samples := [] }).pieces_bins.length = ROW_SNAPSHOT_BINS :=
  c9_row_snapshot_bins sampleState "t1" _ (by rfl)

/-! ### Magnet extraction characterization (claim C5) -/

/-- Spec-side predicate: `pat` occurs in `m` at position `i`. -/
def markerAt (m pat : List Char) (i : Nat) : Prop :=
  (m.drop i).take pat.length = pat

theorem strFind_some_iff (pat : List Char) :
    ∀ (hay : List Char) (i : Nat),
      strFind hay pat = some i ↔
        (markerAt hay pat i ∧ ∀ j, j < i → ¬ markerAt hay pat j) := by
  intro hay
  induction hay with
  | nil =>
    intro i
    unfold strFind
    by_cases hp : pat = []
    · subst hp
      rw [if_pos rfl]
      constructor
      · intro h0
        have hi : i = 0 := (Option.some.inj h0).symm
        subst hi
        exact ⟨rfl, fun j hj => absurd hj (by omega)⟩
      · rintro ⟨-, hmin⟩
        cases i with
        | zero => rfl
        | succ k => exact absurd (by rfl) (hmin 0 (by omega))
    · rw [if_neg hp]
      constructor
      · intro h
        exact Option.noConfusion h
      · rintro ⟨hm, -⟩
        unfold markerAt at hm
        rw [List.drop_nil, List.take_nil] at hm
        exact absurd hm.symm hp
  | cons a rest ih =>
    intro i
    unfold strFind
    by_cases hc : (a :: rest).take pat.length = pat
    · rw [if_pos hc]
      constructor
      · intro h0
        have hi : i = 0 := (Option.some.inj h0).symm
        subst hi
        exact ⟨hc, fun j hj => absurd hj (by omega)⟩
      · rintro ⟨hm, hmin⟩
        cases i with
        | zero => rfl
        | succ k => exact absurd hc (hmin 0 (by omega))
    · rw [if_neg hc]
      cases i with
      | zero =>
        constructor
        · intro h0
          cases hf : strFind rest pat with
          | none =>
            rw [hf] at h0
            exact Option.noConfusion h0
          | some k =>
            rw [hf] at h0
            simp at h0
        · rintro ⟨hm, -⟩
          exact absurd hm hc
      | succ k =>
        constructor
        · intro h0
          cases hf : strFind rest pat with
          | none =>
            rw [hf] at h0
            exact Option.noConfusion h0
          | some k2 =>
            rw [hf] at h0
            simp only [Option.map_some'] at h0
            have hk : k2 = k := by
              have := Option.some.inj h0
              omega
            subst hk
            obtain ⟨hm2, hmin2⟩ := (ih k2).mp hf
            refine ⟨hm2, ?_⟩
            intro j hj
            cases j with
            | zero => exact hc
            | succ j2 =>
              intro hmj
              exact hmin2 j2 (by omega) hmj
        · rintro ⟨hm, hmin⟩
          have hm2 : markerAt rest pat k := hm
          have hmin2 : ∀ j, j < k → ¬ markerAt rest pat j := by
            intro j hj hmj
            exact hmin (j + 1) (by omega) hmj
          rw [(ih k).mpr ⟨hm2, hmin2⟩]
          rfl

theorem strFind_none_iff (pat : List Char) :
    ∀ hay : List Char,
      strFind hay pat = none ↔ ∀ i, ¬ markerAt hay pat i := by
  intro hay
  induction hay with
  | nil =>
    unfold strFind
    by_cases hp : pat = []
    · subst hp
      rw [if_pos rfl]
      constructor
      · intro h
        exact Option.noConfusion h
      · intro hall
        exact absurd rfl (hall 0)
    · rw [if_neg hp]
      constructor
      · intro _ i
        unfold markerAt
        rw [List.drop_nil, List.take_nil]
        exact fun h => hp h.symm
      · intro _
        rfl
  | cons a rest ih =>
    unfold strFind
    by_cases hc : (a :: rest).take pat.length = pat
    · rw [if_pos hc]
      constructor
      · intro h
        exact Option.noConfusion h
      · intro hall
        exact absurd hc (hall 0)
    · rw [if_neg hc]
      constructor
      · intro h i
        have hfn : strFind rest pat = none := by
          cases hf : strFind rest pat with
          | none => rfl
          | some k =>
            rw [hf] at h
            exact Option.noConfusion h
        cases i with
        | zero => exact hc
        | succ k => exact (ih.mp hfn) k
      · intro hall
        have hn : strFind rest pat = none := ih.mpr fun i => hall (i + 1)
        rw [hn]
        rfl

theorem charFind_take_eq_takeWhile (c : Char) :
    ∀ l : List Char,
      (match charFindIdx c l with
       | some i => l.take i
       | none => l) = l.takeWhile fun x => x != c := by
  intro l
  induction l with
  | nil => rfl
  | cons a rest ih =>
    unfold charFindIdx
    by_cases ha : a = c
    · rw [if_pos ha, List.takeWhile_cons, if_neg (by simp [ha])]
      rfl
    · rw [if_neg ha, List.takeWhile_cons, if_pos (by simp [ha])]
      cases hf : charFindIdx c rest with
      | none =>
        have h2 : rest = rest.takeWhile fun x => x != c := by
          rw [← ih, hf]
        simp only [Option.map_none']
        rw [← h2]
      | some k =>
        have h2 : rest.take k = rest.takeWhile fun x => x != c := by
          rw [← ih, hf]
        simp only [Option.map_some']
        rw [List.take_succ_cons, h2]

theorem hash_slice_none (m : List Char) (hs : Nat)
    (hf : charFindIdx '&' (m.drop hs) = none) :
    m.drop hs = (m.drop hs).takeWhile fun x => x != '&' := by
  have h := charFind_take_eq_takeWhile '&' (m.drop hs)
  rw [hf] at h
  exact h

theorem hash_slice_some (m : List Char) (hs i : Nat)
    (hf : charFindIdx '&' (m.drop hs) = some i) :
    (m.take (hs + i)).drop hs = (m.drop hs).takeWhile fun x => x != '&' := by
  have hdt : (m.take (hs + i)).drop hs = (m.drop hs).take i := by
    rw [List.drop_take, Nat.add_sub_cancel_left]
  have h := charFind_take_eq_takeWhile '&' (m.drop hs)
  rw [hf] at h
  rw [hdt]
  exact h

theorem c5_branch (m h : List Char) (xtStart : Nat)
    (hpre : m.take magnetMarker.length = magnetMarker)
    (hlen : m.length ≤ MAX_MAGNET_LENGTH)
    (hocc : markerAt m btihMarker xtStart)
    (homin : ∀ j, j < xtStart → ¬ markerAt m btihMarker j) :
    (if ((m.drop (xtStart + 12)).takeWhile fun x => x != '&').length = 40 ∧
        ((m.drop (xtStart + 12)).takeWhile fun x => x != '&').all
          isAsciiHexDigit = true then
      some (((m.drop (xtStart + 12)).takeWhile fun x => x != '&').map
        toLowerAscii)
     else none) = some h ↔
      (m.take magnetMarker.length = magnetMarker ∧
       m.length ≤ MAX_MAGNET_LENGTH ∧
       ∃ i, markerAt m btihMarker i ∧
         (∀ j, j < i → ¬ markerAt m btihMarker j) ∧
         ((m.drop (i + 12)).takeWhile fun x => x != '&').length = 40 ∧
         ((m.drop (i + 12)).takeWhile fun x => x != '&').all isAsciiHexDigit
           = true ∧
         h = ((m.drop (i + 12)).takeWhile fun x => x != '&').map
               toLowerAscii) := by
  by_cases hcond :
      ((m.drop (xtStart + 12)).takeWhile fun x => x != '&').length = 40 ∧
      ((m.drop (xtStart + 12)).takeWhile fun x => x != '&').all
        isAsciiHexDigit = true
  · rw [if_pos hcond]
    constructor
    · intro heq
      exact ⟨hpre, hlen, xtStart, hocc, homin, hcond.1, hcond.2,
        (Option.some.inj heq).symm⟩
    · rintro ⟨-, -, i, hocc2, homin2, hlen40, hhex, hh⟩
      have hieq : i = xtStart := by
        rcases Nat.lt_trichotomy i xtStart with hlt | heq | hgt
        · exact absurd hocc2 (homin i hlt)
        · exact heq
        · exact absurd hocc (homin2 xtStart hgt)
      subst hieq
      rw [hh]
  · rw [if_neg hcond]
    constructor
    · intro hcon
      exact Option.noConfusion hcon
    · rintro ⟨-, -, i, hocc2, homin2, hlen40, hhex, -⟩
      have hieq : i = xtStart := by
        rcases Nat.lt_trichotomy i xtStart with hlt | heq | hgt
        · exact absurd hocc2 (homin i hlt)
        · exact heq
        · exact absurd hocc (homin2 xtStart hgt)
      subst hieq
      exact absurd ⟨hlen40, hhex⟩ hcond

/-- C5: `extract_info_hash_from_magnet m` returns `some h` exactly when
`m` starts with `"magnet:?"`, `m` is within the overall length cap, and
the first occurrence of `"xt=urn:btih:"` is followed by a value (up to
the next `'&'`) of exactly 40 ASCII hex digits, with `h` that value
lower-cased; a magnet missing the marker, or whose value is not 40 hex
digits, yields `none`. -/
theorem c5_magnet_info_hash (m h : List Char) :
    extract_info_hash_from_magnet m = some h ↔
      (m.take magnetMarker.length = magnetMarker ∧
       m.length ≤ MAX_MAGNET_LENGTH ∧
       ∃ i, markerAt m btihMarker i ∧
         (∀ j, j < i → ¬ markerAt m btihMarker j) ∧
         ((m.drop (i + 12)).takeWhile fun x => x != '&').length = 40 ∧
         ((m.drop (i + 12)).takeWhile fun x => x != '&').all isAsciiHexDigit
           = true ∧
         h = ((m.drop (i + 12)).takeWhile fun x => x != '&').map
               toLowerAscii) := by
  unfold extract_info_hash_from_magnet
  by_cases hpre : m.take magnetMarker.length = magnetMarker
  · rw [if_neg (fun hc => hc hpre)]
    by_cases hlen : m.length > MAX_MAGNET_LENGTH
    · rw [if_pos hlen]
      constructor
      · intro hcon
        exact Option.noConfusion hcon
      · rintro ⟨-, hle, -⟩
        omega
    · rw [if_neg hlen]
      cases hsf : strFind m btihMarker with
      | none =>
        constructor
        · intro hcon
          exact Option.noConfusion hcon
        · rintro ⟨-, -, i, hocc, -⟩
          exact absurd hocc ((strFind_none_iff btihMarker m).mp hsf i)
      | some xtStart =>
        obtain ⟨hocc, homin⟩ := (strFind_some_iff btihMarker m xtStart).mp hsf
        dsimp only
        cases hcf : charFindIdx '&' (m.drop (xtStart + 12)) with
        | none =>
          simp only [hcf]
          rw [List.take_length, hash_slice_none m (xtStart + 12) hcf]
          exact c5_branch m h xtStart hpre (by omega) hocc homin
        | some k =>
          simp only [hcf]
          rw [hash_slice_some m (xtStart + 12) k hcf]
          exact c5_branch m h xtStart hpre (by omega) hocc homin
  · rw [if_pos hpre]
    constructor
    · intro hcon
      exact Option.noConfusion hcon
    · rintro ⟨hp, -⟩
      exact absurd hp hpre

theorem extract_info_hash_example :
    extract_info_hash_from_magnet (String.toList
      "magnet:?xt=urn:btih:AAAAAAAAAAAAAAAAAAAAAAAAAAAAAAAAAAAAAAAA&dn=x") =
      some (String.toList "aaaaaaaaaaaaaaaaaaaaaaaaaaaaaaaaaaaaaaaa") := by
  rfl

/-! ### Peer listing (`peers_for`, lib.rs:2054-2191) -/

/-- `MAX_PEER_SAMPLES_PER_TORRENT` (lib.rs:493). -/
def MAX_PEER_SAMPLES_PER_TORRENT : Nat := 1000

/-- Remove a key (`HashMap::remove`); with unique keys, dropping every
matching entry is the same operation. -/
def alRemove {α : Type} (l : List (String × α)) (k : String) :
    List (String × α) :=
  l.filter (fun kv => !(kv.1 == k))

/-- `Vec::resize(n, d)`. -/
def resizeList (l : List Nat) (n d : Nat) : List Nat :=
  if n ≤ l.length then l.take n else l ++ List.replicate (n - l.length) d

/-- Saturating increment (`saturating_add(1)`, capped at `u32::MAX`) of
the first `n` availability counters. -/
def incrRange (pa : List Nat) (n : Nat) : List Nat :=
  pa.mapIdx (fun i x => if i < n then min (x + 1) U32_MAX else x)

/-- Saturating decrement (`saturating_sub(1)`) of the first `n`
availability counters. -/
def decrRange (pa : List Nat) (n : Nat) : List Nat :=
  pa.mapIdx (fun i x => if i < n then x - 1 else x)

/-- `(q).ceil() as usize` in exact arithmetic; a negative ceiling
clamps to zero exactly as the `as usize` cast does. -/
def ratCeilNat (q : ℚ) : Nat := (Int.ceil q).toNat

/-- Shallow embedding of `update_piece_availability_from_peers`
(lib.rs:1012-1032). -/
def update_piece_availability_from_peers (r : TorrentRecord)
    (peer_progress : ℚ) (peer_id : String) : TorrentRecord :=
  let total_pieces := r.runtime.total_pieces_estimate
  if total_pieces = 0 then r
  else
    let pa0 :=
      if r.runtime.piece_availability.length ≠ total_pieces then
        resizeList r.runtime.piece_availability total_pieces 0
      else r.runtime.piece_availability
    let pa1 :=
      match alLookup r.runtime.peer_progress_cache peer_id with
      | some old =>
        decrRange pa0 (min (ratCeilNat (old * (total_pieces : ℚ)))
          total_pieces)
      | none => pa0
    let pa2 :=
      incrRange pa1 (min (ratCeilNat (peer_progress * (total_pieces : ℚ)))
        total_pieces)
    { r with runtime := { r.runtime with
        piece_availability := pa2
        peer_progress_cache :=
          alInsert r.runtime.peer_progress_cache peer_id peer_progress } }

/-- Shallow embedding of `remove_peer_from_availability`
(lib.rs:1035-1046). -/
def remove_peer_from_availability (r : TorrentRecord) (peer_id : String) :
    TorrentRecord :=
  match alLookup r.runtime.peer_progress_cache peer_id with
  | none => r
  | some progress =>
    let r1 := { r with runtime := { r.runtime with
      peer_progress_cache :=
        alRemove r.runtime.peer_progress_cache peer_id } }
    let total_pieces := r1.runtime.total_pieces_estimate
    if r1.runtime.piece_availability.length = total_pieces then
      { r1 with runtime := { r1.runtime with
          piece_availability :=
            decrRange r1.runtime.piece_availability
              (min (ratCeilNat (progress * (total_pieces : ℚ)))
                total_pieces) } }
    else r1

/-- Shallow embedding of `synth_peer_flags` (lib.rs:2477-2502); `b` is
the raw JSON boolean lookup `v[k].as_bool().unwrap_or(false)`. -/
def synth_peer_flags (b : String → Bool) : String :=
  let f1 : String := if b "encrypted" || b "is_encrypted" then "E" else ""
  let f2 : String := if b "is_seed" || b "seed" then "S" else ""
  let f3 : String := if b "choked" || b "is_choked" then "C" else ""
  let f4 : String := if b "interested" || b "is_interested" then "I" else ""
  let flags := f1 ++ f2 ++ f3 ++ f4
  if flags = "" then "—" else flags

/-- Decoded view of one snapshot peer entry: the results of the
`pick_u64`/`pick_str`/`pick_f32`/`pick_bool` extractions on the peer's
JSON value (the JSON decoding layer is an oracle of the embedding),
plus the raw boolean lookup feeding `synth_peer_flags`.  `progress` is
`ℚ` in place of `f32`. -/
structure PeerEntryV where
  downloaded : Option Nat
  uploaded : Option Nat
  client : Option String
  flags : Option String
  progress : Option ℚ
  snubbed : Option Bool
  choked : Option Bool
  interested : Option Bool
  optimistic : Option Bool
  optimistic_unchoke : Option Bool
  incoming : Option Bool
  encrypted : Option Bool
  rtt : Option Nat
  country : Option String
  jbool : String → Bool

/-- Peer row returned to the frontend (`struct PeerRow`). -/
structure PeerRow where
  id : String
  ip : String
  port : Nat
  down_rate : Int
  up_rate : Int
  downloaded : Nat
  uploaded : Nat
  client : Option String
  flags : Option String
  progress : Option ℚ
  snubbed : Bool
  choked : Bool
  interested : Option Bool
  optimistic : Option Bool
  incoming : Option Bool
  encrypted : Option Bool
  rtt_ms : Option Nat
  country : Option String
  last_seen_ms : Nat
  deriving DecidableEq, Repr

/-- `struct PeersResponse`. -/
structure PeersResponse where
  peers : List PeerRow
  deriving DecidableEq, Repr

/-- Accumulator of the `for (addr, pv) in entries` loop of `peers_for`:
the `seen` key set (as the list of inserted keys), the evolving
`peer_samples` map, and the `out` rows. -/
structure PeerLoopAcc where
  seen : List String
  samples : List (String × PeerSample)
  out : List PeerRow

/-- One iteration of the sampling loop of `peers_for`
(lib.rs:2080-2152).  `nowI` models `now_i = Instant::now()` in
milliseconds and `nowMsEpoch` models `now_ms()`; the f64 rate
`dd / dt.max(0.25)` is computed exactly as `dd * 1000 / max dtMs 250`
before the truncating cast. -/
def peersLoopStep (splitAddr : String → String × Nat)
    (geo : String → Option String) (nowI nowMsEpoch : Nat)
    (acc : PeerLoopAcc) (e : String × PeerEntryV) : PeerLoopAcc :=
  let addr := e.1
  let pv := e.2
  let ip := (splitAddr addr).1
  let port := (splitAddr addr).2
  let downloaded := pv.downloaded.getD 0
  let uploaded := pv.uploaded.getD 0
  let flags := pv.flags.getD (synth_peer_flags pv.jbool)
  let key := addr
  let seen := key :: acc.seen
  let rates : Int × Int × Nat :=
    match alLookup acc.samples key with
    | some prev =>
      let dt := max (nowI - prev.atMs) 250
      let dd := downloaded - prev.downloaded
      let du := uploaded - prev.uploaded
      (((dd * 1000 / dt : Nat) : Int), ((du * 1000 / dt : Nat) : Int),
        nowMsEpoch)
    | none => (0, 0, nowMsEpoch)
  let last_seen_ms := rates.2.2
  let samples := alInsert acc.samples key
    { downloaded := downloaded
      uploaded := uploaded
      last_seen_ms := last_seen_ms
      atMs := nowI }
  let country :=
    match pv.country with
    | some c => some c
    | none => geo ip
  let row : PeerRow :=
    { id := addr
      ip := ip
      port := port
      down_rate := rates.1
      up_rate := rates.2.1
      downloaded := downloaded
      uploaded := uploaded
      client := pv.client
      flags := some flags
      progress := pv.progress
      snubbed := pv.snubbed.getD false
      choked := pv.choked.getD false
      interested := pv.interested
      optimistic :=
        match pv.optimistic with
        | some b => some b
        | none => pv.optimistic_unchoke
      incoming := pv.incoming
      encrypted := pv.encrypted
      rtt_ms := pv.rtt.map (fun x => min x U32_MAX)
      country := country
      last_seen_ms := last_seen_ms }
  { seen := seen, samples := samples, out := acc.out ++ [row] }

/-- The full sampling loop of `peers_for`, starting from an empty
`seen` set and the record's current sample map. -/
def peersLoop (splitAddr : String → String × Nat)
    (geo : String → Option String) (nowI nowMsEpoch : Nat)
    (entries : List (String × PeerEntryV))
    (samples0 : List (String × PeerSample)) : PeerLoopAcc :=
  entries.foldl (peersLoopStep splitAddr geo nowI nowMsEpoch)
    { seen := [], samples := samples0, out := [] }

/-- `peer_samples.retain(|k, _| seen.contains(k))` (lib.rs:2169). -/
def retainSeen (seen : List String)
    (samples : List (String × PeerSample)) : List (String × PeerSample) :=
  samples.filter (fun kv => seen.contains kv.1)

/-- Eviction order of the cap enforcement: ascending `last_seen_ms`
(`sort_by_key`). -/
def sampleLe (a b : String × PeerSample) : Prop :=
  a.2.last_seen_ms ≤ b.2.last_seen_ms

instance : DecidableRel sampleLe := fun a b =>
  inferInstanceAs (Decidable (a.2.last_seen_ms ≤ b.2.last_seen_ms))

instance : IsTotal (String × PeerSample) sampleLe :=
  ⟨fun a b => Nat.le_total a.2.last_seen_ms b.2.last_seen_ms⟩

instance : IsTrans (String × PeerSample) sampleLe :=
  ⟨fun _ _ _ hab hbc => Nat.le_trans hab hbc⟩

/-- Cap enforcement of `peers_for` (lib.rs:2172-2183): when over the
cap, sort ascending by `last_seen_ms`, collect the oldest surplus
keys, and remove them one by one. -/
def enforceSampleCap (samples : List (String × PeerSample)) :
    List (String × PeerSample) :=
  if samples.length > MAX_PEER_SAMPLES_PER_TORRENT then
    let sorted := List.insertionSort sampleLe samples
    let toRemove := sorted.length - MAX_PEER_SAMPLES_PER_TORRENT
    let keysToRemove := (sorted.take toRemove).map Prod.fst
    keysToRemove.foldl (fun m k => alRemove m k) samples
  else samples

/-- Final ordering of the returned rows: descending `down_rate`, then
descending `uploaded` (lib.rs:2186-2190). -/
def rowLe (a b : PeerRow) : Prop :=
  b.down_rate < a.down_rate ∨
    (a.down_rate = b.down_rate ∧ b.uploaded ≤ a.uploaded)

instance : DecidableRel rowLe := fun a b =>
  inferInstanceAs (Decidable (b.down_rate < a.down_rate ∨
    (a.down_rate = b.down_rate ∧ b.uploaded ≤ a.uploaded)))

instance : IsTotal PeerRow rowLe := by
  constructor
  intro a b
  rcases lt_trichotomy a.down_rate b.down_rate with h | h | h
  · exact Or.inr (Or.inl h)
  · rcases Nat.le_total a.uploaded b.uploaded with h2 | h2
    · exact Or.inr (Or.inr ⟨h.symm, h2⟩)
    · exact Or.inl (Or.inr ⟨h, h2⟩)
  · exact Or.inl (Or.inl h)

instance : IsTrans PeerRow rowLe := by
  constructor
  intro a b c hab hbc
  rcases hab with h1 | ⟨h1, h2⟩ <;> rcases hbc with h3 | ⟨h3, h4⟩
  · exact Or.inl (lt_trans h3 h1)
  · exact Or.inl (h3 ▸ h1)
  · exact Or.inl (by rw [h1]; exact h3)
  · exact Or.inr ⟨h1.trans h3, Nat.le_trans h4 h2⟩

/-- Availability update applied per returned row (the
`for peer in &out` pass of `peers_for`, lib.rs:2153-2158). -/
def availFromRow (r : TorrentRecord) (peer : PeerRow) : TorrentRecord :=
  match peer.progress with
  | some p => update_piece_availability_from_peers r p peer.id
  | none => r

/-- Disconnected-peer cleanup applied per cached id (the
`for peer_id in cached_peer_ids` pass of `peers_for`,
lib.rs:2160-2166). -/
def dropDisconnected (currentIds : List String) (r : TorrentRecord)
    (pid : String) : TorrentRecord :=
  if currentIds.contains pid then r
  else remove_peer_from_availability r pid

/-- The record updates of a successful `peers_for` call: the sampling
loop, the two availability passes, the `seen` retention and the cap
enforcement (lib.rs:2080-2183). -/
def peersForRecord (splitAddr : String → String × Nat)
    (geo : String → Option String) (entries : List (String × PeerEntryV))
    (nowI nowMsEpoch : Nat) (rec0 : TorrentRecord) : TorrentRecord :=
  let acc := peersLoop splitAddr geo nowI nowMsEpoch entries
    rec0.runtime.peer_samples
  let rec1 := { rec0 with runtime :=
    { rec0.runtime with peer_samples := acc.samples } }
  let rec2 := acc.out.foldl availFromRow rec1
  let currentIds := acc.out.map (fun p => p.id)
  let cachedIds := rec2.runtime.peer_progress_cache.map Prod.fst
  let rec3 := cachedIds.foldl (dropDisconnected currentIds) rec2
  let retained := retainSeen acc.seen rec3.runtime.peer_samples
  let final := enforceSampleCap retained
  { rec3 with runtime := { rec3.runtime with peer_samples := final } }

/-- Shallow embedding of `peers_for` (lib.rs:2054-2191).  `splitAddr`
stands for `split_addr` (socket-address parsing), `geo` for the GeoIP
lookup `lookup_country` (with `fun _ => none` for a missing reader),
and `engineSnapshot` for the `api_peer_stats` call plus
`peer_entries_from_snapshot` JSON decoding: `Except.error e` is a
failed engine call, a successful one yields the decoded
`(addr, view)` entries. -/
def peers_for (splitAddr : String → String × Nat)
    (geo : String → Option String)
    (engineSnapshot : Except String (List (String × PeerEntryV)))
    (nowI nowMsEpoch : Nat) (s : OrcState) (id : String) :
    Except String PeersResponse × OrcState :=
  match alLookup s.torrents id with
  | none => (.error "torrent not found", s)
  | some rec0 =>
    match engineSnapshot with
    | .error e =>
      let rec1 := { rec0 with runtime :=
        { rec0.runtime with last_error := some e } }
      (.ok { peers := [] },
        { s with torrents := alUpdate s.torrents id rec1 })
    | .ok entries =>
      let acc := peersLoop splitAddr geo nowI nowMsEpoch entries
        rec0.runtime.peer_samples
      let rec4 := peersForRecord splitAddr geo entries nowI nowMsEpoch rec0
      (.ok { peers := List.insertionSort rowLe acc.out },
        { s with torrents := alUpdate s.torrents id rec4 })

theorem upd_avail_samples (r : TorrentRecord) (p : ℚ) (pid : String) :
    (update_piece_availability_from_peers r p pid).runtime.peer_samples =
      r.runtime.peer_samples := by
  unfold update_piece_availability_from_peers
  dsimp only
  repeat' split
  all_goals rfl

theorem remove_avail_samples (r : TorrentRecord) (pid : String) :
    (remove_peer_from_availability r pid).runtime.peer_samples =
      r.runtime.peer_samples := by
  unfold remove_peer_from_availability
  dsimp only
  repeat' split
  all_goals rfl

theorem availFromRow_samples (r : TorrentRecord) (peer : PeerRow) :
    (availFromRow r peer).runtime.peer_samples = r.runtime.peer_samples := by
  unfold availFromRow
  split
  · exact upd_avail_samples r _ _
  · rfl

theorem dropDisconnected_samples (ids : List String) (r : TorrentRecord)
    (pid : String) :
    (dropDisconnected ids r pid).runtime.peer_samples =
      r.runtime.peer_samples := by
  unfold dropDisconnected
  split
  · rfl
  · exact remove_avail_samples r pid

theorem foldl_availFromRow_samples (rows : List PeerRow) :
    ∀ r : TorrentRecord,
      (rows.foldl availFromRow r).runtime.peer_samples =
        r.runtime.peer_samples := by
  induction rows with
  | nil => intro r; rfl
  | cons a rest ih =>
    intro r
    rw [List.foldl_cons, ih, availFromRow_samples]

theorem foldl_dropDisconnected_samples (ids cached : List String) :
    ∀ r : TorrentRecord,
      (cached.foldl (dropDisconnected ids) r).runtime.peer_samples =
        r.runtime.peer_samples := by
  induction cached with
  | nil => intro r; rfl
  | cons a rest ih =>
    intro r
    rw [List.foldl_cons, ih, dropDisconnected_samples]

theorem peersLoopStep_seen (sa : String → String × Nat)
    (ge : String → Option String) (nowI nowMsEpoch : Nat)
    (acc : PeerLoopAcc) (e : String × PeerEntryV) :
    (peersLoopStep sa ge nowI nowMsEpoch acc e).seen = e.1 :: acc.seen := rfl

theorem peersLoopStep_samples (sa : String → String × Nat)
    (ge : String → Option String) (nowI nowMsEpoch : Nat)
    (acc : PeerLoopAcc) (e : String × PeerEntryV) :
    ∃ v, (peersLoopStep sa ge nowI nowMsEpoch acc e).samples =
      alInsert acc.samples e.1 v := ⟨_, rfl⟩

theorem foldl_step_seen_mem (sa : String → String × Nat)
    (ge : String → Option String) (nowI nowMsEpoch : Nat)
    (entries : List (String × PeerEntryV)) :
    ∀ (acc : PeerLoopAcc) (x : String),
      x ∈ (entries.foldl (peersLoopStep sa ge nowI nowMsEpoch) acc).seen ↔
        (x ∈ entries.map Prod.fst ∨ x ∈ acc.seen) := by
  induction entries with
  | nil =>
    intro acc x
    simp
  | cons e rest ih =>
    intro acc x
    rw [List.foldl_cons, ih, peersLoopStep_seen]
    simp only [List.map_cons, List.mem_cons]
    tauto

theorem alInsert_keys_nodup {α : Type} (l : List (String × α)) (k : String)
    (v : α) (h : (l.map Prod.fst).Nodup) :
    ((alInsert l k v).map Prod.fst).Nodup := by
  unfold alInsert
  split
  · have he : (alUpdate l k v).map Prod.fst = l.map Prod.fst := by
      unfold alUpdate
      rw [List.map_map]
      refine List.map_congr_left ?_
      intro kv _
      show (if kv.1 == k then (kv.1, v) else kv).1 = kv.1
      split <;> rfl
    rw [he]
    exact h
  · rename_i hfind
    rw [List.map_append]
    refine List.Nodup.append h (by simp) ?_
    intro a ha hmem
    have hak : a = k := by simpa using hmem
    subst hak
    obtain ⟨kv, hkv, hfst⟩ := List.mem_map.mp ha
    have hnone : l.find? (fun kv => kv.1 == a) = none := by
      cases hf : l.find? (fun kv => kv.1 == a) with
      | none => rfl
      | some w =>
        rw [hf] at hfind
        exact absurd rfl hfind
    have := List.find?_eq_none.mp hnone kv hkv
    simp [hfst] at this

theorem peersLoop_samples_nodup (sa : String → String × Nat)
    (ge : String → Option String) (nowI nowMsEpoch : Nat)
    (entries : List (String × PeerEntryV)) :
    ∀ acc : PeerLoopAcc, (acc.samples.map Prod.fst).Nodup →
      (((entries.foldl (peersLoopStep sa ge nowI nowMsEpoch) acc).samples).map
        Prod.fst).Nodup := by
  induction entries with
  | nil =>
    intro acc h
    exact h
  | cons e rest ih =>
    intro acc h
    rw [List.foldl_cons]
    refine ih _ ?_
    obtain ⟨v, hv⟩ := peersLoopStep_samples sa ge nowI nowMsEpoch acc e
    rw [hv]
    exact alInsert_keys_nodup acc.samples e.1 v h

theorem foldl_alRemove_eq_filter {α : Type} (keys : List String) :
    ∀ m : List (String × α),
      keys.foldl (fun m k => alRemove m k) m =
        m.filter (fun kv => !(keys.contains kv.1)) := by
  induction keys with
  | nil =>
    intro m
    simp
  | cons k ks ih =>
    intro m
    rw [List.foldl_cons, ih]
    unfold alRemove
    rw [List.filter_filter]
    refine List.filter_congr ?_
    intro kv _
    cases h1 : kv.1 == k <;> cases h2 : ks.contains kv.1 <;>
      simp_all [List.contains_cons]

theorem evict_filter_perm (samples : List (String × PeerSample)) (t : Nat)
    (hnd : (samples.map Prod.fst).Nodup) :
    List.Perm (samples.filter (fun kv =>
      !((((List.insertionSort sampleLe samples).take t).map Prod.fst).contains
          kv.1)))
      ((List.insertionSort sampleLe samples).drop t) := by
  set S := List.insertionSort sampleLe samples with hSdef
  have hperm : List.Perm S samples := List.perm_insertionSort sampleLe samples
  have hndS : (S.map Prod.fst).Nodup := ((hperm.map Prod.fst).nodup_iff).mpr hnd
  have htake : (S.take t).filter (fun kv =>
      !(((S.take t).map Prod.fst).contains kv.1)) = [] := by
    rw [List.filter_eq_nil_iff]
    intro a ha
    have hmem : a.1 ∈ (S.take t).map Prod.fst := List.mem_map_of_mem Prod.fst ha
    simp at hmem ⊢
    exact hmem
  have hdisj : ((S.take t).map Prod.fst).Disjoint ((S.drop t).map Prod.fst) := by
    have hsplit : S.map Prod.fst =
        (S.take t).map Prod.fst ++ (S.drop t).map Prod.fst := by
      rw [← List.map_append, List.take_append_drop]
    rw [hsplit] at hndS
    exact (List.nodup_append.mp hndS).2.2
  have hdrop : (S.drop t).filter (fun kv =>
      !(((S.take t).map Prod.fst).contains kv.1)) = S.drop t := by
    rw [List.filter_eq_self]
    intro a ha
    have hnot : a.1 ∉ (S.take t).map Prod.fst := by
      intro hc
      exact hdisj hc (List.mem_map_of_mem Prod.fst ha)
    simp at hnot ⊢
    exact hnot
  have happ : S.filter (fun kv =>
      !(((S.take t).map Prod.fst).contains kv.1)) =
      (S.take t ++ S.drop t).filter (fun kv =>
        !(((S.take t).map Prod.fst).contains kv.1)) := by
    rw [List.take_append_drop]
  rw [List.filter_append, htake, hdrop, List.nil_append] at happ
  have hres := (hperm.filter (fun kv =>
      !(((S.take t).map Prod.fst).contains kv.1))).symm
  rw [happ] at hres
  exact hres

theorem evict_core (samples : List (String × PeerSample)) (t : Nat)
    (hnd : (samples.map Prod.fst).Nodup) :
    ((samples.filter (fun kv =>
        !((((List.insertionSort sampleLe samples).take t).map
            Prod.fst).contains kv.1))).length = samples.length - t) ∧
    (∀ x y,
      x ∈ samples.filter (fun kv =>
        !((((List.insertionSort sampleLe samples).take t).map
            Prod.fst).contains kv.1)) →
      y ∈ samples →
      y ∉ samples.filter (fun kv =>
        !((((List.insertionSort sampleLe samples).take t).map
            Prod.fst).contains kv.1)) →
      y.2.last_seen_ms ≤ x.2.last_seen_ms) := by
  have hperm := evict_filter_perm samples t hnd
  have hlenS : (List.insertionSort sampleLe samples).length = samples.length :=
    (List.perm_insertionSort sampleLe samples).length_eq
  have hsorted : List.Sorted sampleLe (List.insertionSort sampleLe samples) :=
    List.sorted_insertionSort sampleLe samples
  constructor
  · rw [hperm.length_eq, List.length_drop, hlenS]
  · intro x y hx hy hny
    have hxd := hperm.mem_iff.mp hx
    have hyS : y ∈ List.insertionSort sampleLe samples :=
      ((List.perm_insertionSort sampleLe samples).mem_iff).mpr hy
    have hyt : y ∈ (List.insertionSort sampleLe samples).take t := by
      have hsplit : y ∈ (List.insertionSort sampleLe samples).take t ++
          (List.insertionSort sampleLe samples).drop t := by
        rw [List.take_append_drop]
        exact hyS
      rcases List.mem_append.mp hsplit with h | h
      · exact h
      · exact absurd (hperm.mem_iff.mpr h) hny
    have hpw : List.Pairwise sampleLe
        ((List.insertionSort sampleLe samples).take t ++
          (List.insertionSort sampleLe samples).drop t) := by
      rw [List.take_append_drop]
      exact hsorted
    exact (List.pairwise_append.mp hpw).2.2 y hyt x hxd

theorem enforceSampleCap_spec (samples : List (String × PeerSample))
    (hnd : (samples.map Prod.fst).Nodup) :
    (enforceSampleCap samples).length ≤ MAX_PEER_SAMPLES_PER_TORRENT ∧
    (∀ kv, kv ∈ enforceSampleCap samples → kv ∈ samples) ∧
    (∀ x y, x ∈ enforceSampleCap samples → y ∈ samples →
      y ∉ enforceSampleCap samples →
      y.2.last_seen_ms ≤ x.2.last_seen_ms) := by
  unfold enforceSampleCap
  by_cases hgt : samples.length > MAX_PEER_SAMPLES_PER_TORRENT
  · rw [if_pos hgt]
    dsimp only
    rw [foldl_alRemove_eq_filter]
    have hlenS : (List.insertionSort sampleLe samples).length =
        samples.length :=
      (List.perm_insertionSort sampleLe samples).length_eq
    obtain ⟨hlen, hmin⟩ := evict_core samples
      ((List.insertionSort sampleLe samples).length -
        MAX_PEER_SAMPLES_PER_TORRENT) hnd
    refine ⟨?_, ?_, ?_⟩
    · rw [hlen]
      omega
    · intro kv h
      exact (List.mem_filter.mp h).1
    · exact hmin
  · rw [if_neg hgt]
    exact ⟨by omega, fun kv h => h, fun x y hx hy hny => absurd hy hny⟩

theorem peersForRecord_samples (splitAddr : String → String × Nat)
    (geo : String → Option String) (entries : List (String × PeerEntryV))
    (nowI nowMsEpoch : Nat) (rec0 : TorrentRecord) :
    (peersForRecord splitAddr geo entries nowI nowMsEpoch
        rec0).runtime.peer_samples =
      enforceSampleCap (retainSeen
        (peersLoop splitAddr geo nowI nowMsEpoch entries
          rec0.runtime.peer_samples).seen
        (peersLoop splitAddr geo nowI nowMsEpoch entries
          rec0.runtime.peer_samples).samples) := by
  unfold peersForRecord
  dsimp only
  rw [foldl_dropDisconnected_samples, foldl_availFromRow_samples]

/-- C8: after a successful `peers_for` call, the torrent's rate-sample
table holds only keys that appear as addresses in the engine snapshot,
holds at most `MAX_PEER_SAMPLES_PER_TORRENT` (1000) entries, and every
entry evicted by the cap (present after the `seen` retention but
absent from the final table) has a `last_seen_ms` no larger than that
of every surviving entry. -/
theorem c8_peer_sample_cap
    (splitAddr : String → String × Nat) (geo : String → Option String)
    (entries : List (String × PeerEntryV)) (nowI nowMsEpoch : Nat)
    (s : OrcState) (id : String) (rec0 rec1 : TorrentRecord)
    (hrec : alLookup s.torrents id = some rec0)
    (hnd : (rec0.runtime.peer_samples.map Prod.fst).Nodup)
    (hrec1 :
      alLookup (peers_for splitAddr geo (Except.ok entries) nowI nowMsEpoch
        s id).2.torrents id = some rec1) :
    (∀ kv ∈ rec1.runtime.peer_samples, kv.1 ∈ entries.map Prod.fst) ∧
    rec1.runtime.peer_samples.length ≤ MAX_PEER_SAMPLES_PER_TORRENT ∧
    (∀ x ∈ rec1.runtime.peer_samples,
      ∀ y ∈ retainSeen
          (peersLoop splitAddr geo nowI nowMsEpoch entries
            rec0.runtime.peer_samples).seen
          (peersLoop splitAddr geo nowI nowMsEpoch entries
            rec0.runtime.peer_samples).samples,
        y ∉ rec1.runtime.peer_samples →
        y.2.last_seen_ms ≤ x.2.last_seen_ms) := by
  have hstate : (peers_for splitAddr geo (Except.ok entries) nowI nowMsEpoch
      s id).2.torrents =
      alUpdate s.torrents id
        (peersForRecord splitAddr geo entries nowI nowMsEpoch rec0) := by
    unfold peers_for
    simp only [hrec]
  rw [hstate] at hrec1
  rw [alLookup_alUpdate_of_mem s.torrents id _ rec0 hrec] at hrec1
  obtain rfl := Option.some.inj hrec1
  rw [peersForRecord_samples]
  have hndloop : (((peersLoop splitAddr geo nowI nowMsEpoch entries
      rec0.runtime.peer_samples).samples).map Prod.fst).Nodup :=
    peersLoop_samples_nodup splitAddr geo nowI nowMsEpoch entries
      { seen := [], samples := rec0.runtime.peer_samples, out := [] } hnd
  have hndret : ((retainSeen
      (peersLoop splitAddr geo nowI nowMsEpoch entries
        rec0.runtime.peer_samples).seen
      (peersLoop splitAddr geo nowI nowMsEpoch entries
        rec0.runtime.peer_samples).samples).map Prod.fst).Nodup :=
    List.Nodup.sublist ((List.filter_sublist _).map Prod.fst) hndloop
  obtain ⟨hcaplen, hcapsub, hcapmin⟩ := enforceSampleCap_spec _ hndret
  refine ⟨?_, hcaplen, ?_⟩
  · intro kv hkv
    have hret := hcapsub kv hkv
    have hmem : kv ∈ (peersLoop splitAddr geo nowI nowMsEpoch entries
        rec0.runtime.peer_samples).samples ∧
        ((peersLoop splitAddr geo nowI nowMsEpoch entries
          rec0.runtime.peer_samples).seen.contains kv.1) = true :=
      List.mem_filter.mp hret
    have hseen : kv.1 ∈ (peersLoop splitAddr geo nowI nowMsEpoch entries
        rec0.runtime.peer_samples).seen := by
      simpa using hmem.2
    have hcases := (foldl_step_seen_mem splitAddr geo nowI nowMsEpoch entries
      { seen := [], samples := rec0.runtime.peer_samples, out := [] }
      kv.1).mp hseen
    rcases hcases with h | h
    · exact h
    · exact absurd h (List.not_mem_nil kv.1)
  · intro x hx y hy hny
    exact hcapmin x y hx hy hny

/-- Concrete decoded peer entry for exercising the sampling loop. -/
def wPeerEntry : PeerEntryV where
  downloaded := some 10
  uploaded := some 0
  client := none
  flags := none
  progress := some (1 / 2 : ℚ)
  snubbed := none
  choked := none
  interested := none
  optimistic := none
  optimistic_unchoke := none
  incoming := none
  encrypted := none
  rtt := none
  country := none
  jbool := fun _ => false

/-- Concrete snapshot entries. -/
def wEntries : List (String × PeerEntryV) :=
  [("1.2.3.4:6881", wPeerEntry), ("5.6.7.8:42", wPeerEntry)]

/-- Concrete address splitter. -/
def wSplitAddr : String → String × Nat := fun a => (a, 0)

/-- Concrete (absent) GeoIP lookup. -/
def wGeo : String → Option String := fun _ => none

/-- Record produced by the concrete `peers_for` call. -/
def wRes : TorrentRecord :=
  (alLookup (peers_for wSplitAddr wGeo (Except.ok wEntries) 500 600
    sampleState "t1").2.torrents "t1").getD sampleRecord

/-- Pre-eviction retained table of the concrete call. -/
def wRetained : List (String × PeerSample) :=
  retainSeen
    (peersLoop wSplitAddr wGeo 500 600 wEntries
      sampleRecord.runtime.peer_samples).seen
    (peersLoop wSplitAddr wGeo 500 600 wEntries
      sampleRecord.runtime.peer_samples).samples

/-- Witness for C8 on a concrete two-peer snapshot against the sample
state. -/
theorem c8_peer_sample_cap_witness :
    (∀ kv ∈ wRes.runtime.peer_samples, kv.1 ∈ wEntries.map Prod.fst) ∧
    wRes.runtime.peer_samples.length ≤ MAX_PEER_SAMPLES_PER_TORRENT ∧
    (∀ x ∈ wRes.runtime.peer_samples, ∀ y ∈ wRetained,
      y ∉ wRes.runtime.peer_samples →
      y.2.last_seen_ms ≤ x.2.last_seen_ms) :=
  c8_peer_sample_cap wSplitAddr wGeo wEntries 500 600 sampleState "t1"
    sampleRecord wRes rfl (by decide) (by rfl)

end Orc
